import Mathlib

/-!
Formal model of the `aiden_agent` Python repository (Phase-6 autonomous agent).

Each definition below is a shallow embedding of one function or data structure
of the source tree:

* Python floats are modelled as rationals (`ℚ`), Python ints as `Int`/`Nat`.
* Python dicts are modelled as association lists.  The agent keeps several
  dicts whose keys are enum members (`MotivationType`, `ResourceType`) while
  some callers look them up with plain strings; to reflect that faithfully,
  dict keys are modelled by the sum type `PyKey`, so that a string lookup in
  an enum-keyed dict misses exactly as it does in Python.
* Grid positions are pairs of integers (Python happily computes out-of-range
  neighbour coordinates before validating them).
* Mutation is modelled by explicit state passing; `random.shuffle` inside
  `MetaController._random_move` is modelled by an explicit extra argument
  (it is only used in one dead branch of `evaluate`).
-/

namespace Aiden

/-- `TerrainType` enum of `world/terrain.py`. -/
inductive TerrainType
  | forest | ruins | plains | mountains | river
  deriving DecidableEq, Repr

/-- The `.value` string of each `TerrainType` member (all already lowercase,
so the `.lower()` calls in the source are the identity on them). -/
def terrain_value : TerrainType → String
  | .forest => "forest"
  | .ruins => "ruins"
  | .plains => "plains"
  | .mountains => "mountains"
  | .river => "river"

/-- `MotivationType` enum of `cognition/motivation.py`. -/
inductive MotivationType
  | CURIOSITY | BOREDOM | MAINTENANCE | LEARNING | SOCIAL | SURVIVAL | REST | EXPLORATION
  deriving DecidableEq, Repr

/-- `ResourceType` enum of `world/terrain.py`. -/
inductive ResourceType
  | FOOD | BOOK | RELIC
  deriving DecidableEq, Repr

/-- A Python dict key: either an enum member or a plain string.  Comparing a
string key against an enum key always fails, as in Python. -/
inductive PyKey
  | motiv (m : MotivationType)
  | res (r : ResourceType)
  | str (s : String)
  deriving DecidableEq, Repr

/-- `d.get(k, dflt)` on an association-list model of a Python dict. -/
def py_get {α : Type} (l : List (PyKey × α)) (k : PyKey) (dflt : α) : α :=
  match l.find? (fun kv => kv.1 == k) with
  | some kv => kv.2
  | none => dflt

/-- `d.get(k, dflt)` for a string-keyed dict. -/
def s_get {α : Type} (l : List (String × α)) (k : String) (dflt : α) : α :=
  match l.find? (fun kv => kv.1 == k) with
  | some kv => kv.2
  | none => dflt

/-- A string lookup in a dict all of whose keys are enum members always
returns the default (this is the key-type mismatch several call sites hit). -/
theorem py_get_str_of_motiv_keys {α : Type} (l : List (PyKey × α)) (s : String) (dflt : α)
    (h : ∀ kv ∈ l, ∃ m, kv.1 = PyKey.motiv m) : py_get l (PyKey.str s) dflt = dflt := by
  induction l with
  | nil => rfl
  | cons kv rest ih =>
    obtain ⟨m, hm⟩ := h kv (by simp)
    have : (kv.1 == PyKey.str s) = false := by
      rw [hm]; simp
    simp only [py_get, List.find?] at *
    rw [this]
    exact ih (fun kv hkv => h kv (by simp [hkv]))

/-! ## Grid world (`world/terrain.py`) -/

/-- A grid position; Python uses `(x, y)` integer pairs. -/
abbrev Pos := Int × Int

/-- The grid: `width × height` cells, each with a terrain type.  `terrain` is a
total function; the source only reads it at valid positions. -/
structure GridWorld where
  width : Nat
  height : Nat
  terrain : Int → Int → TerrainType

/-- `GridWorld.is_valid_position`. -/
def GridWorld.is_valid_position (gw : GridWorld) (p : Pos) : Bool :=
  decide (0 ≤ p.1) && decide (p.1 < (gw.width : Int)) &&
    decide (0 ≤ p.2) && decide (p.2 < (gw.height : Int))

/-- The `{TerrainType.MOUNTAINS, TerrainType.RUINS}` danger set used by
`GridCell.is_dangerous`, the global planner and (via the lowercase value
strings) the meta-controller. -/
def dangerous_terrain (t : TerrainType) : Bool :=
  t == TerrainType.mountains || t == TerrainType.ruins

/-- The lowercase string danger set `{"mountains", "mountain", "ruins", "ruin"}`
of `meta_controller.py` and `intention_rules.py`. -/
def DANGEROUS : List String := ["mountains", "mountain", "ruins", "ruin"]

/-- On actual terrain value strings the two danger tests agree. -/
theorem dangerous_names_eq (t : TerrainType) :
    DANGEROUS.contains (terrain_value t) = dangerous_terrain t := by
  cases t <;> rfl

/-! ## Self-model data carried across modules (`cognition/self_model.py`) -/

/-- One detected-pattern dict; the controller only reads its `"type"` field,
persistence passes the dict through unchanged. -/
structure Pattern where
  ptype : String
  deriving DecidableEq, Repr

/-- The persisted part of `SelfModel` (the fields written by `to_dict`;
`from_dict` resets every other field to its initial value). -/
structure SelfModel where
  cause_effect_memory : List (Nat × Pattern)
  terrain_reward_history : List (String × List ℚ)
  terrain_preferences : List (String × String)
  detected_patterns : List Pattern
  fatigue_cause_score : ℚ
  environment_sensitivity : ℚ
  habit_strength : List (String × ℚ)
  deriving DecidableEq

/-! ## Meta-controller (`cognition/meta_controller.py`) -/

/-- Mutable state of `MetaController`: the sliding window of proposed actions
(`loop_threshold` is the constant 4). -/
structure MetaController where
  last_actions : List String
  deriving DecidableEq, Repr

/-- The `self.directions` dict, in insertion order (north, south, east, west). -/
def MetaController.directions : List (String × (Int × Int)) :=
  [("move_north", (0, -1)), ("move_south", (0, 1)), ("move_east", (1, 0)), ("move_west", (-1, 0))]

/-- `self.directions.get(move, (0, 0))`. -/
def direction_delta (move : String) : Int × Int :=
  ((MetaController.directions.find? (fun kv => kv.1 == move)).map (fun kv => kv.2)).getD (0, 0)

/-- Agent attributes read by `MetaController.evaluate`. -/
structure AgentState where
  energy : ℚ
  position_x : Int
  position_y : Int
  motivation_levels : List (PyKey × ℚ)
  inventory : List (PyKey × Int)
  deriving DecidableEq

/-- `planner_output` may be `None`, a plain string, or a route dict. -/
inductive PlannerOutput
  | nothing
  | strval (s : String)
  | dictval (action : String) (next_step : String)
  deriving DecidableEq, Repr

/-- Result of `MetaController.evaluate`: the final action, the reason string,
and the updated `last_actions` window. -/
structure EvalResult where
  action : String
  reason : String
  last_actions : List String
  deriving DecidableEq, Repr

/-- `last_actions.append(a)` followed by `pop(0)` once the window exceeds the
loop threshold 4. -/
def push_last_action (la : List String) (a : String) : List String :=
  let l := la ++ [a]
  if 4 < l.length then l.drop 1 else l

/-- `len(last_actions) == loop_threshold and len(set(last_actions)) == 1`. -/
def loop_detected (l : List String) : Bool :=
  l.length == 4 &&
    (match l with
     | [] => true
     | h :: t => t.all (fun x => x == h))

/-- Character-list core of Python's `str.startswith`. -/
def starts_aux : List Char → List Char → Bool
  | _, [] => true
  | [], _ :: _ => false
  | c :: cs, p :: ps => c == p && starts_aux cs ps

/-- Python's `s.startswith(pre)`. -/
def str_starts_with (s pre : String) : Bool := starts_aux s.data pre.data

/-- `MetaController._safe_exit_step`, iterating the direction dict in order. -/
def safe_exit_aux (gw : GridWorld) (x y : Int) : List (String × (Int × Int)) → String
  | [] => "rest"
  | (mv, d) :: rest =>
    let n : Pos := (x + d.1, y + d.2)
    if gw.is_valid_position n && !(dangerous_terrain (gw.terrain n.1 n.2)) then mv
    else safe_exit_aux gw x y rest

/-- `MetaController._safe_exit_step agent`: first in-bounds non-dangerous
neighbour direction, else `"rest"`. -/
def MetaController.safe_exit_step (gw : GridWorld) (x y : Int) : String :=
  safe_exit_aux gw x y MetaController.directions

/-- `MetaController._movement_leads_to_danger`. -/
def MetaController.movement_leads_to_danger (gw : GridWorld) (x y : Int) (move : String) : Bool :=
  let d := direction_delta move
  let n : Pos := (x + d.1, y + d.2)
  if !(gw.is_valid_position n) then true
  else dangerous_terrain (gw.terrain n.1 n.2)

/-- `MetaController.evaluate`.  Each numbered section of the source that can
`return` early is modelled as an `Option EvalResult`; the first `some` wins,
otherwise section 7 approves the proposed action.  `rnd` stands for the result
of `random.shuffle` inside `_random_move`. -/
def MetaController.evaluate (mc : MetaController) (gw : GridWorld) (agent : AgentState)
    (proposed_action : String) (planner_output : PlannerOutput)
    (self_model : Option SelfModel) (rnd : String) : EvalResult :=
  let x := agent.position_x
  let y := agent.position_y
  let current_terrain := gw.terrain x y
  let la := push_last_action mc.last_actions proposed_action
  let out := fun (a r : String) => EvalResult.mk a r la
  -- 1. loop-breaking
  let s1 : Option EvalResult :=
    if loop_detected la then
      let safe_step := MetaController.safe_exit_step gw x y
      if safe_step ≠ "" then some (out safe_step "Loop-break: safe escape")
      else if 40 < agent.energy then some (out rnd "Loop-break: random scatter")
      else if 0 < py_get agent.inventory (PyKey.str "food") 0 then
        some (out "eat" "Loop-break: eat food")
      else some (out "rest" "Loop-break: forced conservation")
    else none
  -- 2. hard fatigue override
  let s2 : Option EvalResult :=
    if agent.energy < 15 ∧ proposed_action ≠ "rest" then
      some (out "rest" "Critical fatigue override (<15 energy)")
    else none
  -- 3. terrain safety overrides
  let s3 : Option EvalResult :=
    if dangerous_terrain current_terrain then
      if proposed_action = "rest" ∧ 20 ≤ agent.energy then
        some (out (MetaController.safe_exit_step gw x y) "Unsafe terrain: cannot rest here")
      else if proposed_action ≠ "" ∧ str_starts_with proposed_action "move" = true ∧
          MetaController.movement_leads_to_danger gw x y proposed_action = true then
        some (out (MetaController.safe_exit_step gw x y) "Avoiding deeper danger")
      else if loop_detected la then
        some (out (MetaController.safe_exit_step gw x y) "Danger oscillation escape")
      else none
    else none
  -- 4. self-model pattern overrides
  let s4 : Option EvalResult :=
    match self_model with
    | some sm =>
      match sm.detected_patterns.getLast? with
      | some pattern =>
        if pattern.ptype = "terrain_avoidance" ∧ str_starts_with proposed_action "move" = true ∧
            agent.energy < 60 then
          some (out "rest" "Self-model: terrain avoidance override")
        else if pattern.ptype = "fatigue_accumulation" ∧ str_starts_with proposed_action "move" = true ∧
            agent.energy < 50 then
          some (out "rest" "Self-model: fatigue accumulation override")
        else none
      | none => none
    | none => none
  -- 5. rest motivation override (string lookup in the enum-keyed dict)
  let s5 : Option EvalResult :=
    if (45 / 100 : ℚ) < py_get agent.motivation_levels (PyKey.str "rest") 0 ∧
        proposed_action ≠ "rest" then
      some (out "rest" "High rest motivation override (>0.45)")
    else none
  -- 6. planner route handling
  let s6 : Option EvalResult :=
    match planner_output with
    | .strval s => if s = "rest" then some (out "rest" "Planner strategic rest") else none
    | .dictval act next_step =>
      if act = "move_to_route" then
        if MetaController.movement_leads_to_danger gw x y next_step = true then
          some (out (MetaController.safe_exit_step gw x y) "Planner correction: BFS suggested danger")
        else some (out next_step "Following safe BFS route")
      else none
    | .nothing => none
  -- 7. default: approve
  match s1 with
  | some r => r
  | none =>
    match s2 with
    | some r => r
    | none =>
      match s3 with
      | some r => r
      | none =>
        match s4 with
        | some r => r
        | none =>
          match s5 with
          | some r => r
          | none =>
            match s6 with
            | some r => r
            | none => out proposed_action "Action approved"

/-! ## Intention engine (`cognition/intent_engine.py`, `cognition_rules/intention_rules.py`) -/

/-- `IntentionType` enum. -/
inductive IntentionType
  | EXPLORE | GATHER | LEARN | SOCIALIZE | REST | SURVIVE | MOVE_TO_SAFER_AREA
  deriving DecidableEq, Repr

/-- An `Intention` object. -/
structure Intention where
  intent_type : IntentionType
  strength : ℚ
  reason : String
  completed : Bool
  cycles_alive : Nat
  deriving DecidableEq

/-- Mutable state of `IntentionEngine`.  `last_intention` is not stored: the
source re-points it at the top of the stack in `_clean_stack` and `_push`, so
it always aliases `stack[-1]` (or `None` for an empty stack) and is modelled
as the derived value `stack.getLast?`. -/
structure IntentionEngine where
  stack : List Intention
  stagnation_counter : Nat
  history : List Intention
  deriving DecidableEq

/-- `IntentionEngine.__init__`. -/
def IntentionEngine.init : IntentionEngine := ⟨[], 0, []⟩

/-- Keep the last `n` elements: the semantics of filling a `deque(maxlen=n)`
(and of Python's `l[-n:]`). -/
def cap_last {α : Type} (n : Nat) (l : List α) : List α := l.drop (l.length - n)

/-- `IntentionEngine._clean_stack`: drop completed intentions, rebuild the
capacity-5 deque. -/
def clean_stack (s : List Intention) : List Intention :=
  cap_last 5 (s.filter (fun i => !i.completed))

/-- Replace the last element of a list (in-place mutation of the object that
`last_intention` aliases). -/
def set_last {α : Type} (l : List α) (x : α) : List α := l.dropLast ++ [x]

/-- Agent attributes read by the intention engine, the rules and the planner. -/
structure AgentView where
  energy : ℚ
  knowledge : ℚ
  position_x : Int
  position_y : Int
  motivation_levels : List (PyKey × ℚ)
  novelty_history : List ℚ
  deriving DecidableEq

/-- The `spatial` dict passed to the rules; only its `"terrain"` entry is read. -/
structure SpatialContext where
  terrain : Option String
  deriving DecidableEq

/-- `_safe_get_terrain` of `intention_rules.py`. -/
def safe_get_terrain (agent : AgentView) (gw : GridWorld) (spatial : SpatialContext) : String :=
  let t := spatial.terrain.getD ""
  if t ≠ "" then t.toLower
  else if gw.is_valid_position (agent.position_x, agent.position_y) then
    terrain_value (gw.terrain agent.position_x agent.position_y)
  else "unknown"

/-- A rule result dict.  The source carries the intention type as the enum
member's name string and converts it back with `IntentionType[...]`; that
string indirection is bijective on the names the rules emit, so the type is
carried directly. -/
structure RuleOutput where
  rtype : IntentionType
  strength : ℚ
  reason : String
  deriving DecidableEq

/-- Rule 1: knowledge saturation. -/
def rule_learning_saturated (agent : AgentView) (_gw : GridWorld) (_sp : SpatialContext) :
    Option RuleOutput :=
  if 20 < agent.knowledge then
    some ⟨.EXPLORE, 65 / 100, "Knowledge saturated (>20) - diversify"⟩
  else none

/-- Rule 2: strict terrain safety. -/
def rule_strict_terrain (agent : AgentView) (gw : GridWorld) (sp : SpatialContext) :
    Option RuleOutput :=
  let terrain := safe_get_terrain agent gw sp
  if DANGEROUS.contains terrain then
    some ⟨.MOVE_TO_SAFER_AREA, 1, "Unsafe terrain detected: " ++ terrain⟩
  else none

/-- Rule 3: low energy. -/
def rule_low_energy (agent : AgentView) (_gw : GridWorld) (_sp : SpatialContext) :
    Option RuleOutput :=
  if agent.energy < 30 then some ⟨.REST, 1, "Energy < 30"⟩ else none

/-- Rule 4: low knowledge (early game). -/
def rule_low_knowledge (agent : AgentView) (_gw : GridWorld) (_sp : SpatialContext) :
    Option RuleOutput :=
  if agent.knowledge < 6 then some ⟨.LEARN, 85 / 100, "Knowledge < 6"⟩ else none

/-- Rule 5: low novelty. -/
def rule_low_novelty (agent : AgentView) (_gw : GridWorld) (_sp : SpatialContext) :
    Option RuleOutput :=
  let novelty := agent.novelty_history.getLast?.getD 1
  if novelty < 8 / 100 then some ⟨.EXPLORE, 7 / 10, "Novelty drop (<0.08)"⟩ else none

/-- Rule 6: high learning drive (string lookup in the enum-keyed dict). -/
def rule_motivation_learning (agent : AgentView) (_gw : GridWorld) (_sp : SpatialContext) :
    Option RuleOutput :=
  if 55 / 100 < py_get agent.motivation_levels (PyKey.str "learning") 0 then
    some ⟨.LEARN, 6 / 10, "Learning motivation > 0.55"⟩
  else none

/-- Rule 7: high exploration drive (string lookup in the enum-keyed dict). -/
def rule_motivation_exploration (agent : AgentView) (_gw : GridWorld) (_sp : SpatialContext) :
    Option RuleOutput :=
  if 45 / 100 < py_get agent.motivation_levels (PyKey.str "exploration") 0 then
    some ⟨.EXPLORE, 6 / 10, "Exploration motivation > 0.45"⟩
  else none

/-- The ordered `INTENTION_RULES` list. -/
def INTENTION_RULES : List (AgentView → GridWorld → SpatialContext → Option RuleOutput) :=
  [rule_learning_saturated, rule_strict_terrain, rule_low_energy, rule_low_knowledge,
   rule_low_novelty, rule_motivation_learning, rule_motivation_exploration]

/-- `IntentionEngine._apply_rules`: first rule that fires. -/
def apply_rules_aux (agent : AgentView) (gw : GridWorld) (sp : SpatialContext) :
    List (AgentView → GridWorld → SpatialContext → Option RuleOutput) → Option RuleOutput
  | [] => none
  | r :: rest =>
    match r agent gw sp with
    | some ro => some ro
    | none => apply_rules_aux agent gw sp rest

/-- `IntentionEngine._apply_rules`. -/
def apply_rules (agent : AgentView) (gw : GridWorld) (sp : SpatialContext) : Option RuleOutput :=
  apply_rules_aux agent gw sp INTENTION_RULES

/-- `IntentionEngine._check_auto_complete_safety` (the terrain read assumes
the agent position is on the grid, as the source does). -/
def IntentionEngine.check_auto_complete (s : List Intention) (agent : AgentView) (gw : GridWorld) :
    List Intention :=
  match s.getLast? with
  | none => s
  | some li =>
    if li.intent_type ≠ IntentionType.MOVE_TO_SAFER_AREA then s
    else
      let terr := terrain_value (gw.terrain agent.position_x agent.position_y)
      if !(DANGEROUS.contains terr) then clean_stack (set_last s { li with completed := true })
      else s

/-- `IntentionEngine._push` (append to the capacity-5 deque, record history). -/
def IntentionEngine.push (e : IntentionEngine) (i : Intention) : IntentionEngine :=
  { e with stack := cap_last 5 (e.stack ++ [i]), history := e.history ++ [i] }

/-- `IntentionEngine._decay_safety_if_stuck`. -/
def IntentionEngine.decay_safety (e : IntentionEngine) : IntentionEngine :=
  match e.stack.getLast? with
  | none => e
  | some li =>
    if li.intent_type ≠ IntentionType.MOVE_TO_SAFER_AREA then e
    else
      let li' := { li with strength := li.strength - 1 / 10 }
      if li'.strength ≤ 0 then
        { e with stack := clean_stack (set_last e.stack { li' with completed := true }) }
      else { e with stack := set_last e.stack li' }

/-- `IntentionEngine._check_stagnation` folded into `evaluate` below;
`IntentionEngine.evaluate` returns the new engine state and the returned
intention (if any). -/
def IntentionEngine.evaluate (e : IntentionEngine) (agent : AgentView) (gw : GridWorld)
    (sp : SpatialContext) : IntentionEngine × Option Intention :=
  -- 1. cleanup, 2. auto-complete MOVE_TO_SAFER_AREA
  let s2 := IntentionEngine.check_auto_complete (clean_stack e.stack) agent gw
  let e2 := { e with stack := s2 }
  -- 3. symbolic intention rules
  match apply_rules agent gw sp with
  | some ro =>
    if ro.rtype = IntentionType.LEARN ∧ 15 < agent.knowledge then (e2, none)
    else
      let new_int : Intention := ⟨ro.rtype, ro.strength, ro.reason, false, 0⟩
      match s2.getLast? with
      | some li =>
        if li.intent_type = ro.rtype then
          let li' :=
            if li.strength < new_int.strength then
              { li with strength := new_int.strength, reason := new_int.reason, completed := false }
            else li
          ({ e2 with stack := set_last s2 li' }, some li')
        else (e2.push new_int, some new_int)
      | none => (e2.push new_int, some new_int)
  | none =>
    -- 4. stagnation escape
    let novelty := agent.novelty_history.getLast?.getD 1
    let counter := if novelty < 5 / 100 then e2.stagnation_counter + 1 else 0
    if 4 < counter then
      let forced : Intention := ⟨.EXPLORE, 3 / 2, "Forced EXPLORE due to stagnation", false, 0⟩
      ({ e2.push forced with stagnation_counter := 0 }, some forced)
    else
      -- 5. decay MOVE_TO_SAFER_AREA if stuck, 6. fallback to top of stack
      let e3 := IntentionEngine.decay_safety { e2 with stagnation_counter := counter }
      match e3.stack.getLast? with
      | some top =>
        let top' := { top with cycles_alive := top.cycles_alive + 1 }
        ({ e3 with stack := set_last e3.stack top' }, some top')
      | none => (e3, none)

/-! ## Q-learning (`learning/q_learning.py`) -/

/-- `QLearningSystem` (the fields used by `update_q_value`; the Q-table is a
`defaultdict(lambda: defaultdict(float))` modelled as a nested association
list with default 0). -/
structure QLearningSystem where
  alpha : ℚ
  epsilon : ℚ
  gamma : ℚ
  q_table : List (String × List (String × ℚ))
  deriving DecidableEq

/-- The system as constructed in `AutonomousAgent.__init__`
(`learning_rate=0.1, epsilon=0.15, discount_factor=0.9`), over an arbitrary
current table state. -/
def QLearningSystem.agent_system (qt : List (String × List (String × ℚ))) : QLearningSystem :=
  ⟨1 / 10, 15 / 100, 9 / 10, qt⟩

/-- `q_table[context][action]` with the defaultdict's `float()` default 0. -/
def q_lookup (qt : List (String × List (String × ℚ))) (c a : String) : ℚ :=
  match qt.find? (fun kv => kv.1 == c) with
  | some kv =>
    match kv.2.find? (fun av => av.1 == a) with
    | some av => av.2
    | none => 0
  | none => 0

/-- Assignment into a string-keyed dict. -/
def assoc_set {α : Type} (l : List (String × α)) (k : String) (v : α) : List (String × α) :=
  match l with
  | [] => [(k, v)]
  | (k', v') :: rest => if k' = k then (k', v) :: rest else (k', v') :: assoc_set rest k v

/-- `q_table[context][action] = v` (the defaultdict materialises missing
context rows). -/
def q_set (qt : List (String × List (String × ℚ))) (c a : String) (v : ℚ) :
    List (String × List (String × ℚ)) :=
  match qt with
  | [] => [(c, [(a, v)])]
  | (c', m) :: rest => if c' = c then (c', assoc_set m a v) :: rest else (c', m) :: q_set rest c a v

/-- `max(min(reward, 10), -10)`. -/
def clamp_reward (r : ℚ) : ℚ := max (min r 10) (-10)

/-- `QLearningSystem.update_q_value` (the `action.value` string is the key). -/
def QLearningSystem.update_q_value (sys : QLearningSystem) (context action : String) (reward : ℚ) :
    QLearningSystem :=
  let total_reward := clamp_reward reward
  let current_q := q_lookup sys.q_table context action
  let new_q := current_q + sys.alpha * (total_reward - current_q)
  { sys with q_table := q_set sys.q_table context action new_q }

/-! ## Goal system (`goals/goal_system.py`) -/

/-- `GoalStatus` enum. -/
inductive GoalStatus
  | ACTIVE | COMPLETED | FAILED | ABANDONED
  deriving DecidableEq, Repr

/-- `GoalStatus.value`. -/
def GoalStatus.value : GoalStatus → String
  | .ACTIVE => "active"
  | .COMPLETED => "completed"
  | .FAILED => "failed"
  | .ABANDONED => "abandoned"

/-- `GoalStatus(s)` (total model; the source raises on unknown strings, which
never occur in serialized data). -/
def GoalStatus.of_value (s : String) : GoalStatus :=
  if s = "active" then .ACTIVE
  else if s = "completed" then .COMPLETED
  else if s = "failed" then .FAILED
  else if s = "abandoned" then .ABANDONED
  else .ACTIVE

/-- A `Goal` object. -/
structure Goal where
  id : Int
  description : String
  goal_type : String
  target_value : ℚ
  current_progress : ℚ
  priority : ℚ
  status : GoalStatus
  created_cycle : Int
  completed_cycle : Option Int
  reward_bonus : ℚ
  deriving DecidableEq

/-- The dict produced by `Goal.to_dict`. -/
structure GoalDict where
  id : Int
  description : String
  goal_type : String
  target_value : ℚ
  current_progress : ℚ
  priority : ℚ
  status : String
  created_cycle : Int
  completed_cycle : Option Int
  reward_bonus : ℚ
  deriving DecidableEq

/-- `Goal.to_dict`. -/
def Goal.to_dict (g : Goal) : GoalDict :=
  ⟨g.id, g.description, g.goal_type, g.target_value, g.current_progress, g.priority,
   g.status.value, g.created_cycle, g.completed_cycle, g.reward_bonus⟩

/-- `Goal.from_dict`. -/
def Goal.from_dict (d : GoalDict) : Goal :=
  ⟨d.id, d.description, d.goal_type, d.target_value, d.current_progress, d.priority,
   GoalStatus.of_value d.status, d.created_cycle, d.completed_cycle, d.reward_bonus⟩

/-- `GoalManager` state (`goal_creation_interval` is the constant 8). -/
structure GoalManager where
  max_active_goals : Nat
  active_goals : List Goal
  completed_goals : List Goal
  failed_goals : List Goal
  next_goal_id : Int
  total_goals_created : Int
  total_goals_completed : Int
  last_goal_creation_cycle : Int
  deriving DecidableEq

/-- The dict produced by `GoalManager.to_dict`. -/
structure GoalManagerDict where
  active_goals : List GoalDict
  completed_goals : List GoalDict
  failed_goals : List GoalDict
  next_goal_id : Int
  total_goals_created : Int
  total_goals_completed : Int
  last_goal_creation_cycle : Int
  deriving DecidableEq

/-- `GoalManager.to_dict`: all active goals, the last 20 completed, the last
10 failed. -/
def GoalManager.to_dict (gm : GoalManager) : GoalManagerDict :=
  ⟨gm.active_goals.map Goal.to_dict,
   (cap_last 20 gm.completed_goals).map Goal.to_dict,
   (cap_last 10 gm.failed_goals).map Goal.to_dict,
   gm.next_goal_id, gm.total_goals_created, gm.total_goals_completed,
   gm.last_goal_creation_cycle⟩

/-- `GoalManager.from_dict` (a fresh `GoalManager()` has `max_active_goals=3`). -/
def GoalManager.from_dict (d : GoalManagerDict) : GoalManager :=
  ⟨3, d.active_goals.map Goal.from_dict, d.completed_goals.map Goal.from_dict,
   d.failed_goals.map Goal.from_dict, d.next_goal_id, d.total_goals_created,
   d.total_goals_completed, d.last_goal_creation_cycle⟩

/-- Python `int()` truncation toward zero on a rational. -/
def py_trunc (q : ℚ) : Int := q.num / (q.den : Int)

/-- A candidate dict built inside `GoalManager.create_goals`. -/
structure GoalCandidate where
  description : String
  goal_type : String
  target : ℚ
  priority : ℚ
  deriving DecidableEq

/-- The candidate list built by `GoalManager.create_goals` (lines 141-208)
before it is sorted by priority and truncated to the free slots.  The
`motivation_levels` dict is keyed by `MotivationType` members and this
function looks it up with enum keys (unlike the planner and the controller). -/
def goal_candidates (energy knowledge happiness : ℚ) (cells_discovered : Int)
    (inventory : List (String × Int)) (motivation_levels : List (PyKey × ℚ)) :
    List GoalCandidate :=
  let mget := fun (m : MotivationType) (d : ℚ) => py_get motivation_levels (PyKey.motiv m) d
  let c1 : List GoalCandidate :=
    if cells_discovered < 25 ∧ (4 / 10 : ℚ) < mget .EXPLORATION 0 then
      let unexplored := 25 - cells_discovered
      let target := min 5 (max 2 (Int.fdiv unexplored 3))
      [⟨"Explore " ++ toString target ++ " new tiles", "explore_tiles", (target : ℚ),
        mget .EXPLORATION (1 / 2)⟩]
    else []
  let total_relics := s_get inventory "relic" 0
  let total_books := s_get inventory "book" 0
  let c2 : List GoalCandidate :=
    if total_relics < 3 ∧ (3 / 10 : ℚ) < mget .CURIOSITY 0 then
      [⟨"Collect 2 relics", "collect_relics", 2, 7 / 10⟩]
    else []
  let c3 : List GoalCandidate :=
    if total_books < 5 ∧ (4 / 10 : ℚ) < mget .LEARNING 0 then
      [⟨"Collect 3 books", "collect_books", 3, 6 / 10⟩]
    else []
  let c4 : List GoalCandidate :=
    if knowledge < 100 ∧ (5 / 10 : ℚ) < mget .LEARNING 0 then
      let knowledge_gap := 100 - knowledge
      let target := min 30 (max 15 (py_trunc (knowledge_gap * (3 / 10))))
      [⟨"Increase knowledge by >=" ++ toString target, "knowledge_gain", (target : ℚ),
        mget .LEARNING (1 / 2)⟩]
    else []
  let c5 : List GoalCandidate :=
    if energy < 70 ∧ (3 / 10 : ℚ) < mget .SURVIVAL 0 then
      [⟨"Reach energy >=80", "energy_level", 80, if energy < 30 then 9 / 10 else 6 / 10⟩]
    else []
  let c6 : List GoalCandidate :=
    if happiness < 60 then [⟨"Reach happiness >=70", "happiness_level", 70, 1 / 2⟩] else []
  c1 ++ c2 ++ c3 ++ c4 ++ c5 ++ c6

/-! ## Self-model persistence (`cognition/self_model.py`) -/

/-- The dict produced by `SelfModel.to_dict`. -/
structure SelfModelDict where
  cause_effect_memory : List (Nat × Pattern)
  terrain_reward_map : List (String × List ℚ)
  terrain_preferences : List (String × String)
  detected_patterns : List Pattern
  fatigue_cause_score : ℚ
  environment_sensitivity : ℚ
  habit_strength : List (String × ℚ)
  deriving DecidableEq

/-- `SelfModel.to_dict`: last 50 cause-effect entries, last 20 rewards per
terrain, last 20 detected patterns. -/
def SelfModel.to_dict (m : SelfModel) : SelfModelDict :=
  ⟨cap_last 50 m.cause_effect_memory,
   m.terrain_reward_history.map (fun kv => (kv.1, cap_last 20 kv.2)),
   m.terrain_preferences,
   cap_last 20 m.detected_patterns,
   m.fatigue_cause_score, m.environment_sensitivity, m.habit_strength⟩

/-- `SelfModel.from_dict` (histories and counters not in the dict restart
from their initial values, which this persisted-state model does not carry). -/
def SelfModel.from_dict (d : SelfModelDict) : SelfModel :=
  ⟨d.cause_effect_memory, d.terrain_reward_map, d.terrain_preferences,
   d.detected_patterns, d.fatigue_cause_score, d.environment_sensitivity, d.habit_strength⟩

/-! ## Agent persistence of the Q-table (`agent/autonomous_agent.py`) -/

/-- `save_memory`'s Q-table conversion: `str(action)` on keys that are already
strings and `float(q_value)` on float values are both the identity. -/
def save_q_table (qt : List (String × List (String × ℚ))) :
    List (String × List (String × ℚ)) :=
  qt.map (fun cm => (cm.1, cm.2.map (fun av => (av.1, av.2))))

/-- `load_memory`'s inner Q-table loop: assign every `(action, value)` pair of
one context row. -/
def ctx_load (c : String) (acc : List (String × List (String × ℚ)))
    (m : List (String × ℚ)) : List (String × List (String × ℚ)) :=
  m.foldl (fun acc2 av => q_set acc2 c av.1 av.2) acc

/-- `load_memory`'s outer Q-table loop over an accumulated table. -/
def load_from (acc : List (String × List (String × ℚ)))
    (data : List (String × List (String × ℚ))) : List (String × List (String × ℚ)) :=
  data.foldl (fun acc cm => ctx_load cm.1 acc cm.2) acc

/-- `load_memory`'s Q-table loop: entry-by-entry assignment into the fresh
defaultdict. -/
def load_q_table (data : List (String × List (String × ℚ))) :
    List (String × List (String × ℚ)) :=
  load_from [] data

/-! ## Global planner (`cognition/global_planner.py`) -/

/-- `GlobalPlanner.propose_subgoal`.  Note the order: the energy check comes
first in the source ("Survival priority"), and the two motivation lookups use
string keys. -/
def GlobalPlanner.propose_subgoal (agent : AgentView) (gw : GridWorld) : String :=
  if agent.energy < 35 then "recover_energy"
  else if dangerous_terrain (gw.terrain agent.position_x agent.position_y) then "find_safe_area"
  else if (20 / 100 : ℚ) < py_get agent.motivation_levels (PyKey.str "exploration") 0 then
    "find_new_cell"
  else if (20 / 100 : ℚ) < py_get agent.motivation_levels (PyKey.str "learning") 0 then
    "study_knowledge"
  else "maintain_status"

/-- The BFS moves, in the planner's neighbour-dict insertion order
(north, south, west, east). -/
inductive Move
  | north | south | west | east
  deriving DecidableEq, Repr

/-- The coordinates of a neighbour in the given direction. -/
def step_move (p : Pos) : Move → Pos
  | .north => (p.1, p.2 - 1)
  | .south => (p.1, p.2 + 1)
  | .west => (p.1 - 1, p.2)
  | .east => (p.1 + 1, p.2)

/-- The planner's move-name strings. -/
def move_name : Move → String
  | .north => "move_north"
  | .south => "move_south"
  | .west => "move_west"
  | .east => "move_east"

/-- The fixed expansion order of `find_nearest_safe_cell`'s neighbour dict. -/
def planner_move_order : List Move := [.north, .south, .west, .east]

/-- The BFS target predicate: the cell's terrain is not in
`{MOUNTAINS, RUINS}`. -/
def cell_safe (gw : GridWorld) (p : Pos) : Bool :=
  !(dangerous_terrain (gw.terrain p.1 p.2))

/-- A queue entry `(pos, first_direction)`. -/
abbrev BfsEntry := Pos × Option Move

/-- One iteration of the neighbour loop: skip invalid and visited positions,
otherwise mark visited and enqueue with the inherited (or new) first step. -/
def push_candidate (gw : GridWorld) (first : Option Move) (p : Pos)
    (st : List BfsEntry × List Pos) (m : Move) : List BfsEntry × List Pos :=
  let n := step_move p m
  if gw.is_valid_position n && !(decide (n ∈ st.2)) then
    (st.1 ++ [(n, some (first.getD m))], n :: st.2)
  else st

/-- Expansion of all four neighbours in the fixed order. -/
def expand_neighbors (gw : GridWorld) (p : Pos) (first : Option Move)
    (q : List BfsEntry) (v : List Pos) : List BfsEntry × List Pos :=
  planner_move_order.foldl (push_candidate gw first p) (q, v)

/-- The `while queue:` loop of `find_nearest_safe_cell`.  The source loop
needs no fuel (the visited set is bounded); the fuel argument is given a
provably sufficient value below.  `some first` models `return first_step`
upon finding safe terrain, `none` models falling off the loop. -/
def bfs_loop (gw : GridWorld) : Nat → List BfsEntry → List Pos → Option (Option Move)
  | 0, _, _ => none
  | _ + 1, [], _ => none
  | fuel + 1, (p, first) :: rest, v =>
    if cell_safe gw p then some first
    else
      let st := expand_neighbors gw p first rest v
      bfs_loop gw fuel st.1 st.2

/-- `GlobalPlanner.find_nearest_safe_cell`: BFS from `start` with
`visited = {start}`.  Both `return first_step` with a `None` first step (the
start cell itself is safe) and `return None` (nothing reachable is safe)
produce Python `None`, hence the `join`. -/
def find_nearest_safe_cell (gw : GridWorld) (start : Pos) : Option Move :=
  (bfs_loop gw (gw.width * gw.height + 1) [(start, none)] [start]).join

/-- Repeatedly move along the first step returned by the planner's BFS. -/
def follow_route (gw : GridWorld) : Nat → Pos → Option Pos
  | 0, p => some p
  | n + 1, p =>
    match find_nearest_safe_cell gw p with
    | some m => follow_route gw n (step_move p m)
    | none => none

/-! ## Association-list lemmas -/

theorem assoc_set_find {α : Type} (l : List (String × α)) (k : String) (v : α) :
    (assoc_set l k v).find? (fun kv => kv.1 == k) = some (k, v) := by
  induction l with
  | nil => simp [assoc_set]
  | cons kv rest ih =>
    by_cases h : kv.1 = k
    · subst h; simp [assoc_set]
    · simp [assoc_set, h, ih]

theorem assoc_set_find_other {α : Type} (l : List (String × α)) (k k' : String) (v : α)
    (h : k' ≠ k) :
    (assoc_set l k' v).find? (fun kv => kv.1 == k) = l.find? (fun kv => kv.1 == k) := by
  induction l with
  | nil => simp [assoc_set, h]
  | cons kv rest ih =>
    by_cases hk : kv.1 = k'
    · subst hk; simp [assoc_set, h]
    · by_cases hk2 : kv.1 = k
      · subst hk2; simp [assoc_set, hk]
      · simp [assoc_set, hk, hk2, ih]

theorem q_lookup_q_set_same (qt : List (String × List (String × ℚ))) (c a : String) (v : ℚ) :
    q_lookup (q_set qt c a v) c a = v := by
  induction qt with
  | nil => simp [q_set, q_lookup]
  | cons cm rest ih =>
    by_cases h : cm.1 = c
    · subst h; simp [q_set, q_lookup, assoc_set_find]
    · simp [q_set, q_lookup, h, ih]
      simpa [q_lookup] using ih

theorem q_lookup_q_set_other_action (qt : List (String × List (String × ℚ)))
    (c a a' : String) (v : ℚ) (h : a' ≠ a) :
    q_lookup (q_set qt c a' v) c a = q_lookup qt c a := by
  induction qt with
  | nil => simp [q_set, q_lookup, h]
  | cons cm rest ih =>
    by_cases hc : cm.1 = c
    · subst hc; simp [q_set, q_lookup, assoc_set_find_other _ _ _ _ h]
    · simp [q_set, q_lookup, hc]
      simpa [q_lookup] using ih

theorem q_lookup_q_set_other_context (qt : List (String × List (String × ℚ)))
    (c c' a a' : String) (v : ℚ) (h : c' ≠ c) :
    q_lookup (q_set qt c' a' v) c a = q_lookup qt c a := by
  induction qt with
  | nil => simp [q_set, q_lookup, h]
  | cons cm rest ih =>
    by_cases hc : cm.1 = c'
    · subst hc; simp [q_set, q_lookup, h]
    · by_cases hc2 : cm.1 = c
      · subst hc2; simp [q_set, q_lookup, hc]
      · simp [q_set, q_lookup, hc, hc2]
        simpa [q_lookup] using ih

/-! ## C7: the tabular update rule -/

/-- C7 (confirmed): for every context, action, stored value and real reward,
`update_q_value` on the agent's constructed system (learning rate 0.1) stores
exactly `old + 0.1 * (clamp(reward, -10, 10) - old)`. -/
theorem update_q_value_rule (qt : List (String × List (String × ℚ)))
    (context action : String) (reward : ℚ) :
    q_lookup ((QLearningSystem.agent_system qt).update_q_value context action reward).q_table
        context action
      = q_lookup qt context action
        + (1 / 10) * (clamp_reward reward - q_lookup qt context action) := by
  simp [QLearningSystem.update_q_value, QLearningSystem.agent_system, q_lookup_q_set_same]

/-! ## C10: the safety of `_safe_exit_step` -/

theorem safe_exit_aux_spec (gw : GridWorld) (x y : Int)
    (ds : List (String × (Int × Int))) :
    safe_exit_aux gw x y ds = "rest" ∨
      ∃ p ∈ ds, safe_exit_aux gw x y ds = p.1 ∧
        gw.is_valid_position (x + p.2.1, y + p.2.2) = true ∧
        dangerous_terrain (gw.terrain (x + p.2.1) (y + p.2.2)) = false := by
  induction ds with
  | nil => left; rfl
  | cons d rest ih =>
    by_cases h : gw.is_valid_position (x + d.2.1, y + d.2.2) = true ∧
        dangerous_terrain (gw.terrain (x + d.2.1) (y + d.2.2)) = false
    · right
      refine ⟨d, by simp, ?_, h.1, h.2⟩
      simp [safe_exit_aux, h.1, h.2]
    · have hs : safe_exit_aux gw x y (d :: rest) = safe_exit_aux gw x y rest := by
        simp only [safe_exit_aux]
        rw [if_neg]
        intro hcon
        rw [Bool.and_eq_true] at hcon
        exact h ⟨hcon.1, by simpa using hcon.2⟩
      rw [hs]
      rcases ih with h1 | ⟨p, hp, h2, h3, h4⟩
      · left; exact h1
      · right; exact ⟨p, by simp [hp], h2, h3, h4⟩

/-- C10 (confirmed): `_safe_exit_step` returns either `"rest"` or a direction
from the controller's direction table whose destination is inside the grid and
not on dangerous terrain. -/
theorem safe_exit_step_safety (gw : GridWorld) (x y : Int) :
    MetaController.safe_exit_step gw x y = "rest" ∨
      ∃ p ∈ MetaController.directions, MetaController.safe_exit_step gw x y = p.1 ∧
        gw.is_valid_position (x + p.2.1, y + p.2.2) = true ∧
        dangerous_terrain (gw.terrain (x + p.2.1) (y + p.2.2)) = false :=
  safe_exit_aux_spec gw x y MetaController.directions

/-! ## C4: the `propose_subgoal` decision list -/

/-- C4 counterexample: on mountains with energy 10 the subgoal is
`"recover_energy"`, not the escape subgoal — the energy check precedes the
terrain check. -/
theorem propose_subgoal_energy_before_terrain_cex :
    dangerous_terrain ((GridWorld.mk 1 1 (fun _ _ => TerrainType.mountains)).terrain 0 0) = true ∧
    (10 : ℚ) < 15 ∧
    GlobalPlanner.propose_subgoal ⟨10, 0, 0, 0, [], []⟩
        (GridWorld.mk 1 1 (fun _ _ => TerrainType.mountains)) = "recover_energy" ∧
    GlobalPlanner.propose_subgoal ⟨10, 0, 0, 0, [], []⟩
        (GridWorld.mk 1 1 (fun _ _ => TerrainType.mountains)) ≠ "find_safe_area" := by
  refine ⟨rfl, by norm_num, rfl, by decide⟩

/-- C4 (amended): `propose_subgoal` is a fixed decision list evaluated top to
bottom returning the first match, with low energy checked before dangerous
terrain: energy < 35 yields `"recover_energy"` regardless of terrain; then
mountains/ruins terrain yields `"find_safe_area"`; then exploration motivation
above 0.20 yields `"find_new_cell"`; then learning motivation above 0.20
yields `"study_knowledge"`; else `"maintain_status"`. -/
theorem propose_subgoal_decision_list (agent : AgentView) (gw : GridWorld) :
    (agent.energy < 35 → GlobalPlanner.propose_subgoal agent gw = "recover_energy") ∧
    (¬ agent.energy < 35 →
      dangerous_terrain (gw.terrain agent.position_x agent.position_y) = true →
      GlobalPlanner.propose_subgoal agent gw = "find_safe_area") ∧
    (¬ agent.energy < 35 →
      dangerous_terrain (gw.terrain agent.position_x agent.position_y) = false →
      (20 / 100 : ℚ) < py_get agent.motivation_levels (PyKey.str "exploration") 0 →
      GlobalPlanner.propose_subgoal agent gw = "find_new_cell") ∧
    (¬ agent.energy < 35 →
      dangerous_terrain (gw.terrain agent.position_x agent.position_y) = false →
      ¬ (20 / 100 : ℚ) < py_get agent.motivation_levels (PyKey.str "exploration") 0 →
      (20 / 100 : ℚ) < py_get agent.motivation_levels (PyKey.str "learning") 0 →
      GlobalPlanner.propose_subgoal agent gw = "study_knowledge") ∧
    (¬ agent.energy < 35 →
      dangerous_terrain (gw.terrain agent.position_x agent.position_y) = false →
      ¬ (20 / 100 : ℚ) < py_get agent.motivation_levels (PyKey.str "exploration") 0 →
      ¬ (20 / 100 : ℚ) < py_get agent.motivation_levels (PyKey.str "learning") 0 →
      GlobalPlanner.propose_subgoal agent gw = "maintain_status") := by
  refine ⟨fun h1 => ?_, fun h1 h2 => ?_, fun h1 h2 h3 => ?_, fun h1 h2 h3 h4 => ?_,
    fun h1 h2 h3 h4 => ?_⟩
  · simp [GlobalPlanner.propose_subgoal, h1]
  · simp [GlobalPlanner.propose_subgoal, h1, h2]
  · simp [GlobalPlanner.propose_subgoal, h1, h2, h3]
  · simp [GlobalPlanner.propose_subgoal, h1, h2, h3, h4]
  · simp [GlobalPlanner.propose_subgoal, h1, h2, h3, h4]

/-- Witness for C4: the first conjunct at a concrete low-energy state. -/
theorem propose_subgoal_decision_list_witness :
    GlobalPlanner.propose_subgoal ⟨10, 0, 0, 0, [], []⟩
        (GridWorld.mk 1 1 (fun _ _ => TerrainType.plains)) = "recover_energy" :=
  (propose_subgoal_decision_list ⟨10, 0, 0, 0, [], []⟩
    (GridWorld.mk 1 1 (fun _ _ => TerrainType.plains))).1 (by norm_num)

/-! ## C9: the energy-level goal candidate -/

/-- C9 counterexample: with energy 50 (< 70) but survival motivation 0.2 the
candidate list contains no energy-level goal — the claim omits the
survival-motivation condition of the source. -/
theorem energy_goal_requires_survival_cex :
    (50 : ℚ) < 70 ∧
    goal_candidates 50 0 70 5 [] [(PyKey.motiv MotivationType.SURVIVAL, 1 / 5)] = [] := by
  constructor
  · norm_num
  · simp [goal_candidates, py_get, s_get]
    norm_num

/-- C9 (amended): for every call to `create_goals` with energy < 70 and
survival motivation above 0.3, the candidate list built before priority
sorting contains an energy-level goal with target 80 whose priority is 0.9
when energy < 30 and 0.6 otherwise. -/
theorem energy_goal_candidate (energy knowledge happiness : ℚ) (cells_discovered : Int)
    (inventory : List (String × Int)) (motivation_levels : List (PyKey × ℚ))
    (h1 : energy < 70)
    (h2 : (3 / 10 : ℚ) < py_get motivation_levels (PyKey.motiv MotivationType.SURVIVAL) 0) :
    ∃ c ∈ goal_candidates energy knowledge happiness cells_discovered inventory
        motivation_levels,
      c.goal_type = "energy_level" ∧ c.target = 80 ∧
      c.priority = if energy < 30 then (9 / 10 : ℚ) else 6 / 10 := by
  refine ⟨⟨"Reach energy >=80", "energy_level", 80,
    if energy < 30 then (9 / 10 : ℚ) else 6 / 10⟩, ?_, rfl, rfl, rfl⟩
  simp only [goal_candidates]
  refine List.mem_append_left _ (List.mem_append_right _ ?_)
  rw [if_pos ⟨h1, h2⟩]
  simp

/-- Witness for C9. -/
theorem energy_goal_candidate_witness :
    ∃ c ∈ goal_candidates 50 0 70 5 [] [(PyKey.motiv MotivationType.SURVIVAL, 1 / 2)],
      c.goal_type = "energy_level" ∧ c.target = 80 ∧
      c.priority = if (50 : ℚ) < 30 then (9 / 10 : ℚ) else 6 / 10 :=
  energy_goal_candidate 50 0 70 5 [] [(PyKey.motiv MotivationType.SURVIVAL, 1 / 2)]
    (by norm_num) (by norm_num [py_get])

/-! ## C3: the rest-motivation override is dead code -/

/-- The agent's motivation dict as initialised in `AutonomousAgent.__init__`
(lines 73-82): keyed by `MotivationType` members. -/
def agent_initial_motivations : List (PyKey × ℚ) :=
  [(PyKey.motiv .CURIOSITY, 1 / 2), (PyKey.motiv .BOREDOM, 0),
   (PyKey.motiv .MAINTENANCE, 1 / 10), (PyKey.motiv .LEARNING, 1 / 2),
   (PyKey.motiv .SOCIAL, 1 / 5), (PyKey.motiv .SURVIVAL, 0),
   (PyKey.motiv .REST, 1 / 5), (PyKey.motiv .EXPLORATION, 6 / 10)]

/-- C3 (code bug): the agent's motivation map is keyed by `MotivationType`
members, but the controller's rest-motivation override looks up the string
key `"rest"`, which always misses and yields the default 0; so even with rest
motivation 0.9 > 0.45 the proposed action `"explore"` is approved instead of
being overridden to `"rest"`, contradicting the override the source comments
and the spec describe. -/
theorem meta_rest_motivation_override_dead :
    (45 / 100 : ℚ) <
      py_get [(PyKey.motiv MotivationType.REST, (9 : ℚ) / 10)]
        (PyKey.motiv MotivationType.REST) 0 ∧
    py_get [(PyKey.motiv MotivationType.REST, (9 : ℚ) / 10)] (PyKey.str "rest") 0 = 0 ∧
    (MetaController.evaluate ⟨[]⟩ (GridWorld.mk 1 1 (fun _ _ => TerrainType.plains))
        ⟨50, 0, 0, [(PyKey.motiv MotivationType.REST, 9 / 10)], []⟩
        "explore" PlannerOutput.nothing none "move_north").action = "explore" := by
  refine ⟨by norm_num [py_get], rfl, ?_⟩
  have h1 : loop_detected (push_last_action [] "explore") = false := by decide
  have h2 : py_get [(PyKey.motiv MotivationType.REST, (9 : ℚ) / 10)] (PyKey.str "rest") 0 = 0 := by
    simp [py_get]
  have hd : dangerous_terrain TerrainType.plains = false := by decide
  have hne : ("explore" : String) ≠ "rest" := by decide
  simp only [MetaController.evaluate, h1, h2, hd, hne]
  norm_num

/-! ## C1: the critical-fatigue override -/

/-- C1 counterexample: with energy 10 (< 15) and four identical proposed
actions (a detected behavioral loop), the loop-breaking section runs before
the fatigue override and returns the safe-escape move `"move_east"`, not
`"rest"`. -/
theorem meta_low_energy_loop_break_cex :
    ((10 : ℚ) < 15) ∧
    (MetaController.evaluate ⟨["rest", "rest", "rest"]⟩
        (GridWorld.mk 2 1 (fun _ _ => TerrainType.plains)) ⟨10, 0, 0, [], []⟩
        "rest" PlannerOutput.nothing none "move_north").action = "move_east" ∧
    "move_east" ≠ "rest" := by
  refine ⟨by norm_num, by decide, by decide⟩

/-- C1 (amended): with energy < 15 the controller returns `"rest"` provided
the just-updated window of proposed actions is not four identical entries
(no behavioral loop): unconditionally when the proposed action is not
`"rest"`, and when it is already `"rest"` provided the planner output is not
a `move_to_route` packet (which section 6 may follow instead). -/
theorem meta_low_energy_forces_rest (mc : MetaController) (gw : GridWorld) (agent : AgentState)
    (proposed : String) (planner : PlannerOutput) (sm : Option SelfModel) (rnd : String)
    (hE : agent.energy < 15)
    (hLoop : loop_detected (push_last_action mc.last_actions proposed) = false)
    (hP : proposed ≠ "rest" ∨ ∀ ns, planner ≠ PlannerOutput.dictval "move_to_route" ns) :
    (MetaController.evaluate mc gw agent proposed planner sm rnd).action = "rest" := by
  by_cases hpr : proposed = "rest"
  · subst hpr
    rcases hP with h | h
    · exact absurd rfl h
    · have hE20 : ¬ (20 : ℚ) ≤ agent.energy := fun hc => absurd hE (by linarith)
      have hsw : str_starts_with "rest" "move" = false := by decide
      simp only [MetaController.evaluate, hLoop, Bool.false_eq_true, if_false, hsw,
        Bool.false_eq_true, and_false, false_and, if_false, ne_eq, not_true_eq_false,
        and_true, true_and, hE20, if_neg, ite_self]
      have hsm : ∀ (r : Option EvalResult),
          (match r with
           | some r => r
           | none => EvalResult.mk "rest" "Action approved"
              (push_last_action mc.last_actions "rest")) = r.getD
                (EvalResult.mk "rest" "Action approved"
                  (push_last_action mc.last_actions "rest")) := by
        intro r; cases r <;> rfl
      -- sections 4, 5, 6: no override can change the action away from "rest"
      rcases sm with _ | sm'
      · cases planner with
        | nothing => simp
        | strval s =>
          by_cases hs : s = "rest" <;> simp [hs]
        | dictval act ns =>
          have hact : ¬ act = "move_to_route" := fun hc => h ns (by rw [hc])
          simp [hact]
      · cases hgl : sm'.detected_patterns.getLast? with
        | none =>
          cases planner with
          | nothing => simp [hgl]
          | strval s => by_cases hs : s = "rest" <;> simp [hgl, hs]
          | dictval act ns =>
            have hact : ¬ act = "move_to_route" := fun hc => h ns (by rw [hc])
            simp [hgl, hact]
        | some pat =>
          cases planner with
          | nothing => simp [hgl]
          | strval s => by_cases hs : s = "rest" <;> simp [hgl, hs]
          | dictval act ns =>
            have hact : ¬ act = "move_to_route" := fun hc => h ns (by rw [hc])
            simp [hgl, hact]
  · simp [MetaController.evaluate, hLoop, hE, hpr]

/-- Witness for C1: a concrete non-loop state with energy 10. -/
theorem meta_low_energy_forces_rest_witness :
    ((10 : ℚ) < 15) ∧
    (MetaController.evaluate ⟨[]⟩ (GridWorld.mk 1 1 (fun _ _ => TerrainType.plains))
        ⟨10, 0, 0, [], []⟩ "explore" PlannerOutput.nothing none "move_north").action = "rest" :=
  ⟨by norm_num,
   meta_low_energy_forces_rest ⟨[]⟩ (GridWorld.mk 1 1 (fun _ _ => TerrainType.plains))
     ⟨10, 0, 0, [], []⟩ "explore" PlannerOutput.nothing none "move_north"
     (by norm_num) (by decide) (Or.inl (by decide))⟩

/-! ## C8: LEARN suppression above the saturation threshold -/

/-- C8 (confirmed): with knowledge above the saturation threshold 20 the
first intention rule fires with an EXPLORE output, so `evaluate` never
returns a LEARN intention, whatever the stack contents. -/
theorem no_learn_when_saturated (e : IntentionEngine) (agent : AgentView) (gw : GridWorld)
    (sp : SpatialContext) (h : (20 : ℚ) < agent.knowledge) :
    ∀ i, (IntentionEngine.evaluate e agent gw sp).2 = some i →
      i.intent_type ≠ IntentionType.LEARN := by
  intro i hi
  have hr : apply_rules agent gw sp =
      some ⟨IntentionType.EXPLORE, 65 / 100, "Knowledge saturated (>20) - diversify"⟩ := by
    simp [apply_rules, INTENTION_RULES, apply_rules_aux, rule_learning_saturated, h]
  rw [IntentionEngine.evaluate, hr] at hi
  simp only [reduceCtorEq, false_and, if_false] at hi
  rcases hgl : (IntentionEngine.check_auto_complete (clean_stack e.stack) agent gw).getLast? with
    _ | li
  · rw [hgl] at hi
    simp only [Option.some.injEq] at hi
    rw [← hi]
    decide
  · rw [hgl] at hi
    by_cases hty : li.intent_type = IntentionType.EXPLORE
    · simp only [hty, if_true, Option.some.injEq] at hi
      by_cases hst : li.strength < 65 / 100 <;> simp only [hst, if_true, if_false] at hi <;>
        rw [← hi] <;> simp [hty]
    · simp only [hty, if_false, Option.some.injEq] at hi
      rw [← hi]
      decide

/-- Witness for C8: knowledge 25 on a fresh engine. -/
theorem no_learn_when_saturated_witness :
    ((20 : ℚ) < 25) ∧
    ∀ i, (IntentionEngine.evaluate IntentionEngine.init ⟨50, 25, 0, 0, [], []⟩
        (GridWorld.mk 1 1 (fun _ _ => TerrainType.plains)) ⟨none⟩).2 = some i →
      i.intent_type ≠ IntentionType.LEARN :=
  ⟨by norm_num,
   no_learn_when_saturated IntentionEngine.init ⟨50, 25, 0, 0, [], []⟩
     (GridWorld.mk 1 1 (fun _ _ => TerrainType.plains)) ⟨none⟩ (by norm_num)⟩

/-! ## C6: the intention-stack invariant -/

theorem cap_last_length_le {α : Type} (n : Nat) (l : List α) : (cap_last n l).length ≤ n := by
  simp [cap_last]
  omega

theorem mem_cap_last {α : Type} {n : Nat} {l : List α} {x : α} (h : x ∈ cap_last n l) : x ∈ l :=
  List.drop_subset _ _ h

theorem clean_stack_length (s : List Intention) : (clean_stack s).length ≤ 5 :=
  cap_last_length_le _ _

theorem clean_stack_completed {s : List Intention} {i : Intention} (h : i ∈ clean_stack s) :
    i.completed = false := by
  have := mem_cap_last h
  simp [List.mem_filter] at this
  exact this.2

theorem getLast_mem {α : Type} : ∀ {l : List α} {a : α}, l.getLast? = some a → a ∈ l
  | [], _, h => by simp at h
  | [_], _, h => by simp_all
  | _ :: y :: t, a, h => by
    rw [List.getLast?_cons_cons] at h
    exact List.mem_cons_of_mem _ (getLast_mem h)

theorem set_last_length {α : Type} (l : List α) (x : α) (h : l ≠ []) :
    (set_last l x).length = l.length := by
  have : 1 ≤ l.length := List.length_pos.mpr h
  simp [set_last, List.length_dropLast]
  omega

theorem mem_set_last {α : Type} {l : List α} {x y : α} (h : y ∈ set_last l x) :
    y ∈ l ∨ y = x := by
  simp only [set_last, List.mem_append, List.mem_singleton] at h
  rcases h with h | h
  · exact Or.inl ((List.dropLast_prefix l).subset h)
  · exact Or.inr h

/-- The stack produced by `_check_auto_complete_safety` stays within capacity
and completion-free if its input is. -/
theorem check_auto_complete_spec (s : List Intention) (agent : AgentView) (gw : GridWorld)
    (hlen : s.length ≤ 5) (hcl : ∀ i ∈ s, i.completed = false) :
    (IntentionEngine.check_auto_complete s agent gw).length ≤ 5 ∧
      ∀ i ∈ IntentionEngine.check_auto_complete s agent gw, i.completed = false := by
  unfold IntentionEngine.check_auto_complete
  split
  · exact ⟨hlen, hcl⟩
  · split
    · exact ⟨hlen, hcl⟩
    · dsimp only
      split
      · exact ⟨clean_stack_length _, fun i hi => clean_stack_completed hi⟩
      · exact ⟨hlen, hcl⟩

/-- `_push` keeps the stack within capacity and completion-free. -/
theorem push_spec (e : IntentionEngine) (i : Intention)
    (hcl : ∀ j ∈ e.stack, j.completed = false) (hi : i.completed = false) :
    (e.push i).stack.length ≤ 5 ∧ ∀ j ∈ (e.push i).stack, j.completed = false := by
  refine ⟨cap_last_length_le _ _, fun j hj => ?_⟩
  rcases List.mem_append.mp (mem_cap_last hj) with h | h
  · exact hcl _ h
  · simp at h
    subst h
    exact hi

/-- `_decay_safety_if_stuck` keeps the stack within capacity and
completion-free. -/
theorem decay_safety_spec (e : IntentionEngine)
    (hlen : e.stack.length ≤ 5) (hcl : ∀ i ∈ e.stack, i.completed = false) :
    (IntentionEngine.decay_safety e).stack.length ≤ 5 ∧
      ∀ i ∈ (IntentionEngine.decay_safety e).stack, i.completed = false := by
  unfold IntentionEngine.decay_safety
  split
  · exact ⟨hlen, hcl⟩
  · next li hgl =>
    have hne : e.stack ≠ [] := by
      intro hc
      rw [hc] at hgl
      simp at hgl
    split
    · exact ⟨hlen, hcl⟩
    · dsimp only
      split
      · exact ⟨clean_stack_length _, fun i hi => clean_stack_completed hi⟩
      · constructor
        · rw [set_last_length _ _ hne]
          exact hlen
        · intro i hi
          rcases mem_set_last hi with h | h
          · exact hcl _ h
          · subst h
            exact hcl li (getLast_mem hgl)

/-- C6 (confirmed): the intention stack starts empty, never exceeds the deque
capacity 5, and after every call to `evaluate` no intention remaining on the
stack is completed. -/
theorem intention_stack_invariant (e : IntentionEngine) (agent : AgentView) (gw : GridWorld)
    (sp : SpatialContext) :
    IntentionEngine.init.stack.length ≤ 5 ∧
    (IntentionEngine.evaluate e agent gw sp).1.stack.length ≤ 5 ∧
    ∀ i ∈ (IntentionEngine.evaluate e agent gw sp).1.stack, i.completed = false := by
  refine ⟨by decide, ?_⟩
  obtain ⟨hb1, hb2⟩ := check_auto_complete_spec (clean_stack e.stack) agent gw
    (clean_stack_length _) (fun i hi => clean_stack_completed hi)
  unfold IntentionEngine.evaluate
  cases har : apply_rules agent gw sp with
  | some ro =>
    simp only []
    by_cases hlearn : ro.rtype = IntentionType.LEARN ∧ 15 < agent.knowledge
    · simp only [if_pos hlearn]
      exact ⟨hb1, hb2⟩
    · simp only [if_neg hlearn]
      cases hgl : (IntentionEngine.check_auto_complete (clean_stack e.stack) agent gw).getLast?
        with
      | some li =>
        have hne : IntentionEngine.check_auto_complete (clean_stack e.stack) agent gw ≠ [] := by
          intro hc
          rw [hc] at hgl
          simp at hgl
        by_cases hty : li.intent_type = ro.rtype
        · simp only [if_pos hty]
          constructor
          · rw [set_last_length _ _ hne]
            exact hb1
          · intro i hi
            rcases mem_set_last hi with h | h
            · exact hb2 _ h
            · subst h
              by_cases hst : li.strength < ro.strength
              · simp [hst]
              · simp [hst]
                exact hb2 _ (getLast_mem hgl)
        · simp only [if_neg hty]
          exact push_spec { e with
            stack := IntentionEngine.check_auto_complete (clean_stack e.stack) agent gw }
            _ hb2 rfl
      | none =>
        exact push_spec { e with
          stack := IntentionEngine.check_auto_complete (clean_stack e.stack) agent gw }
          _ hb2 rfl
  | none =>
    simp only []
    by_cases hcnt : 4 < (if agent.novelty_history.getLast?.getD 1 < 5 / 100 then
        e.stagnation_counter + 1 else 0)
    · simp only [if_pos hcnt]
      exact push_spec _ _ hb2 rfl
    · simp only [if_neg hcnt]
      obtain ⟨hd1, hd2⟩ := decay_safety_spec { e with
        stack := IntentionEngine.check_auto_complete (clean_stack e.stack) agent gw,
        stagnation_counter := (if agent.novelty_history.getLast?.getD 1 < 5 / 100 then
          e.stagnation_counter + 1 else 0) } hb1 hb2
      cases hgl : (IntentionEngine.decay_safety { e with
          stack := IntentionEngine.check_auto_complete (clean_stack e.stack) agent gw,
          stagnation_counter := (if agent.novelty_history.getLast?.getD 1 < 5 / 100 then
            e.stagnation_counter + 1 else 0) }).stack.getLast? with
      | some top =>
        have hne : (IntentionEngine.decay_safety { e with
            stack := IntentionEngine.check_auto_complete (clean_stack e.stack) agent gw,
            stagnation_counter := (if agent.novelty_history.getLast?.getD 1 < 5 / 100 then
              e.stagnation_counter + 1 else 0) }).stack ≠ [] := by
          intro hc
          rw [hc] at hgl
          simp at hgl
        constructor
        · rw [set_last_length _ _ hne]
          exact hd1
        · intro i hi
          rcases mem_set_last hi with h | h
          · exact hd2 _ h
          · subst h
            simp
            exact hd2 _ (getLast_mem hgl)
      | none => exact ⟨hd1, hd2⟩

/-! ## C5: persistence round trips -/

theorem GoalStatus.of_value_value (st : GoalStatus) : GoalStatus.of_value st.value = st := by
  cases st <;> rfl

theorem goal_round_trip (g : Goal) : Goal.from_dict (Goal.to_dict g) = g := by
  cases g
  simp [Goal.to_dict, Goal.from_dict, GoalStatus.of_value_value]

theorem goal_list_round_trip (l : List Goal) : (l.map Goal.to_dict).map Goal.from_dict = l := by
  rw [List.map_map]
  have h : Goal.from_dict ∘ Goal.to_dict = id := funext goal_round_trip
  rw [h, List.map_id]

theorem find_none_of_keys {α : Type} (m : List (String × α)) (a : String)
    (h : a ∉ m.map Prod.fst) : m.find? (fun kv => kv.1 == a) = none := by
  apply List.find?_eq_none.mpr
  intro x hx
  simp only [beq_eq_false_iff_ne, ne_eq, Bool.not_eq_true, beq_iff_eq]
  intro he
  exact h (he ▸ List.mem_map_of_mem Prod.fst hx)

theorem ctx_load_other (c c' a : String) (h : c' ≠ c) (m : List (String × ℚ)) :
    ∀ acc, q_lookup (ctx_load c' acc m) c a = q_lookup acc c a := by
  induction m with
  | nil => intro acc; rfl
  | cons av m' ih =>
    intro acc
    have : ctx_load c' acc (av :: m') = ctx_load c' (q_set acc c' av.1 av.2) m' := rfl
    rw [this, ih]
    exact q_lookup_q_set_other_context _ _ _ _ _ _ h

theorem ctx_load_lookup (c a : String) (m : List (String × ℚ))
    (hnd : (m.map Prod.fst).Nodup) :
    ∀ acc, q_lookup (ctx_load c acc m) c a =
      match m.find? (fun kv => kv.1 == a) with
      | some av => av.2
      | none => q_lookup acc c a := by
  induction m with
  | nil => intro acc; rfl
  | cons av m' ih =>
    intro acc
    rw [List.map_cons, List.nodup_cons] at hnd
    have hstep : ctx_load c acc (av :: m') = ctx_load c (q_set acc c av.1 av.2) m' := rfl
    rw [hstep, ih hnd.2]
    by_cases he : av.1 = a
    · subst he
      rw [find_none_of_keys m' av.1 hnd.1]
      simp [q_lookup_q_set_same]
    · have hfind : (av :: m').find? (fun kv => kv.1 == a) = m'.find? (fun kv => kv.1 == a) := by
        rw [List.find?_cons_of_neg]
        simp [he]
      rw [hfind]
      cases hf : m'.find? (fun kv => kv.1 == a) with
      | some av2 => rfl
      | none => exact q_lookup_q_set_other_action _ _ _ _ _ he

theorem load_from_lookup (c a : String) (data : List (String × List (String × ℚ)))
    (hc : (data.map Prod.fst).Nodup)
    (hi : ∀ cm ∈ data, (cm.2.map Prod.fst).Nodup) :
    ∀ acc, q_lookup (load_from acc data) c a =
      match data.find? (fun kv => kv.1 == c) with
      | some cm =>
        match cm.2.find? (fun kv => kv.1 == a) with
        | some av => av.2
        | none => q_lookup acc c a
      | none => q_lookup acc c a := by
  induction data with
  | nil => intro acc; rfl
  | cons cm rest ih =>
    intro acc
    rw [List.map_cons, List.nodup_cons] at hc
    have hstep : load_from acc (cm :: rest) = load_from (ctx_load cm.1 acc cm.2) rest := rfl
    rw [hstep, ih hc.2 (fun x hx => hi x (List.mem_cons_of_mem _ hx))]
    by_cases he : cm.1 = c
    · subst he
      have hrest : rest.find? (fun kv => kv.1 == cm.1) = none := find_none_of_keys _ _ hc.1
      rw [hrest, List.find?_cons_of_pos _ (by simp)]
      exact ctx_load_lookup _ _ _ (hi cm (by simp)) acc
    · have hfind : (cm :: rest).find? (fun kv => kv.1 == c) =
          rest.find? (fun kv => kv.1 == c) := by
        rw [List.find?_cons_of_neg]
        simp [he]
      rw [hfind]
      cases hf : rest.find? (fun kv => kv.1 == c) with
      | some cm2 =>
        dsimp only
        cases hf2 : cm2.2.find? (fun kv => kv.1 == a) with
        | some av => rfl
        | none => exact ctx_load_other _ _ _ he _ _
      | none =>
        dsimp only
        exact ctx_load_other _ _ _ he _ _

theorem save_q_table_id (qt : List (String × List (String × ℚ))) : save_q_table qt = qt := by
  simp [save_q_table]

theorem load_save_q_lookup (qt : List (String × List (String × ℚ)))
    (hc : (qt.map Prod.fst).Nodup)
    (hi : ∀ cm ∈ qt, (cm.2.map Prod.fst).Nodup) (c a : String) :
    q_lookup (load_q_table (save_q_table qt)) c a = q_lookup qt c a := by
  rw [save_q_table_id, load_q_table, load_from_lookup c a qt hc hi []]
  rw [show q_lookup qt c a =
      (match qt.find? (fun kv => kv.1 == c) with
       | some cm =>
         match cm.2.find? (fun kv => kv.1 == a) with
         | some av => av.2
         | none => (0 : ℚ)
       | none => (0 : ℚ)) from rfl]
  cases hf : qt.find? (fun kv => kv.1 == c) with
  | some cm =>
    cases hf2 : cm.2.find? (fun kv => kv.1 == a) with
    | some av => rfl
    | none => rfl
  | none => rfl

/-- C5 (confirmed): deserialising the serialised component states reproduces
them modulo the documented retention truncation: the self-model keeps the
last 20 detected patterns and all terrain preferences, fatigue and
sensitivity scores; the goal manager keeps every active goal with every
field, the last 20 completed and last 10 failed goals; and (with the
key-uniqueness every Python dict guarantees) the saved Q-table maps every
(context, action) pair back to its stored value. -/
theorem persistence_round_trip (m : SelfModel) (gm : GoalManager)
    (qt : List (String × List (String × ℚ)))
    (hc : (qt.map Prod.fst).Nodup)
    (hi : ∀ cm ∈ qt, (cm.2.map Prod.fst).Nodup) :
    (SelfModel.from_dict (SelfModel.to_dict m)).detected_patterns
        = cap_last 20 m.detected_patterns ∧
    (SelfModel.from_dict (SelfModel.to_dict m)).terrain_preferences = m.terrain_preferences ∧
    (SelfModel.from_dict (SelfModel.to_dict m)).fatigue_cause_score = m.fatigue_cause_score ∧
    (SelfModel.from_dict (SelfModel.to_dict m)).environment_sensitivity
        = m.environment_sensitivity ∧
    (GoalManager.from_dict (GoalManager.to_dict gm)).active_goals = gm.active_goals ∧
    (GoalManager.from_dict (GoalManager.to_dict gm)).completed_goals
        = cap_last 20 gm.completed_goals ∧
    (GoalManager.from_dict (GoalManager.to_dict gm)).failed_goals
        = cap_last 10 gm.failed_goals ∧
    (∀ c a, q_lookup (load_q_table (save_q_table qt)) c a = q_lookup qt c a) := by
  refine ⟨rfl, rfl, rfl, rfl, ?_, ?_, ?_, fun c a => load_save_q_lookup qt hc hi c a⟩
  · exact goal_list_round_trip gm.active_goals
  · exact goal_list_round_trip (cap_last 20 gm.completed_goals)
  · exact goal_list_round_trip (cap_last 10 gm.failed_goals)

/-- Witness for C5 at a concrete one-row Q-table. -/
theorem persistence_round_trip_witness :
    (([("ctx", [("study", (2 : ℚ))])].map Prod.fst).Nodup) ∧
    ((SelfModel.from_dict (SelfModel.to_dict ⟨[], [], [], [⟨"repetition_loop"⟩], 0, 1 / 2, []⟩)).detected_patterns
        = cap_last 20 [Pattern.mk "repetition_loop"] ∧
     (SelfModel.from_dict (SelfModel.to_dict ⟨[], [], [], [⟨"repetition_loop"⟩], 0, 1 / 2, []⟩)).terrain_preferences = [] ∧
     (SelfModel.from_dict (SelfModel.to_dict ⟨[], [], [], [⟨"repetition_loop"⟩], 0, 1 / 2, []⟩)).fatigue_cause_score = 0 ∧
     (SelfModel.from_dict (SelfModel.to_dict ⟨[], [], [], [⟨"repetition_loop"⟩], 0, 1 / 2, []⟩)).environment_sensitivity
        = 1 / 2 ∧
     (GoalManager.from_dict (GoalManager.to_dict ⟨3, [], [], [], 1, 0, 0, 0⟩)).active_goals = [] ∧
     (GoalManager.from_dict (GoalManager.to_dict ⟨3, [], [], [], 1, 0, 0, 0⟩)).completed_goals
        = cap_last 20 ([] : List Goal) ∧
     (GoalManager.from_dict (GoalManager.to_dict ⟨3, [], [], [], 1, 0, 0, 0⟩)).failed_goals
        = cap_last 10 ([] : List Goal) ∧
     (∀ c a, q_lookup (load_q_table (save_q_table [("ctx", [("study", (2 : ℚ))])])) c a
        = q_lookup [("ctx", [("study", (2 : ℚ))])] c a)) :=
  ⟨by decide,
   persistence_round_trip ⟨[], [], [], [⟨"repetition_loop"⟩], 0, 1 / 2, []⟩
     ⟨3, [], [], [], 1, 0, 0, 0⟩ [("ctx", [("study", (2 : ℚ))])]
     (by decide) (by decide)⟩

/-! ## C2: correctness of the planner's BFS

The BFS traverses the 4-connected grid of valid cells (dangerous cells are
traversed, they are only not accepted), so reachability is over all valid
cells. -/

/-- `ReachN gw s n c`: there is a path of exactly `n` grid moves from `s` to
`c` all of whose intermediate and final cells are valid. -/
inductive ReachN (gw : GridWorld) (s : Pos) : Nat → Pos → Prop
  | refl : ReachN gw s 0 s
  | step {n : Nat} {p : Pos} (m : Move) (h : ReachN gw s n p)
      (hv : gw.is_valid_position (step_move p m) = true) : ReachN gw s (n + 1) (step_move p m)

theorem reachN_zero {gw : GridWorld} {s c : Pos} (h : ReachN gw s 0 c) : c = s := by
  cases h
  rfl

theorem reachN_succ {gw : GridWorld} {s c : Pos} {n : Nat} (h : ReachN gw s (n + 1) c) :
    ∃ p m, ReachN gw s n p ∧ c = step_move p m ∧ gw.is_valid_position c = true := by
  cases h with
  | step m h hv => exact ⟨_, m, h, rfl, hv⟩

theorem reachN_valid {gw : GridWorld} {s c : Pos} {n : Nat}
    (hs : gw.is_valid_position s = true) (h : ReachN gw s n c) :
    gw.is_valid_position c = true := by
  induction h with
  | refl => exact hs
  | step m h hv => exact hv

theorem reachN_trans {gw : GridWorld} {s p c : Pos} {a b : Nat}
    (h1 : ReachN gw s a p) (h2 : ReachN gw p b c) : ReachN gw s (a + b) c := by
  induction h2 with
  | refl => exact h1
  | step m h hv ih => exact ReachN.step m ih hv

theorem reachN_prepend {gw : GridWorld} {s c : Pos} {e : Nat} (m : Move)
    (hv : gw.is_valid_position (step_move s m) = true)
    (h : ReachN gw (step_move s m) e c) : ReachN gw s (e + 1) c := by
  have h1 : ReachN gw s 1 (step_move s m) := ReachN.step m ReachN.refl hv
  have h2 := reachN_trans h1 h
  rwa [Nat.add_comm] at h2

/-- `d` is the distance from `s` to the nearest safe cell. -/
def NearestSafeDist (gw : GridWorld) (s : Pos) (d : Nat) : Prop :=
  (∃ c, ReachN gw s d c ∧ cell_safe gw c = true) ∧
  ∀ e c, ReachN gw s e c → cell_safe gw c = true → d ≤ e

theorem nearest_safe_dist_unique {gw : GridWorld} {s : Pos} {d d' : Nat}
    (h1 : NearestSafeDist gw s d) (h2 : NearestSafeDist gw s d') : d = d' := by
  obtain ⟨c1, hr1, hs1⟩ := h1.1
  obtain ⟨c2, hr2, hs2⟩ := h2.1
  exact le_antisymm (h1.2 _ _ hr2 hs2) (h2.2 _ _ hr1 hs1)

/-! ### Counting valid positions -/

/-- The finite set of valid positions. -/
def valid_finset (gw : GridWorld) : Finset Pos :=
  Finset.Icc (0 : ℤ) ((gw.width : ℤ) - 1) ×ˢ Finset.Icc (0 : ℤ) ((gw.height : ℤ) - 1)

theorem mem_valid_finset {gw : GridWorld} {p : Pos} :
    p ∈ valid_finset gw ↔ gw.is_valid_position p = true := by
  simp only [valid_finset, Finset.mem_product, Finset.mem_Icc, GridWorld.is_valid_position,
    Bool.and_eq_true, decide_eq_true_eq]
  omega

theorem valid_finset_card (gw : GridWorld) :
    (valid_finset gw).card = gw.width * gw.height := by
  simp only [valid_finset, Finset.card_product, Int.card_Icc]
  have h1 : ((gw.width : ℤ) - 1 + 1 - 0) = (gw.width : ℤ) := by ring
  have h2 : ((gw.height : ℤ) - 1 + 1 - 0) = (gw.height : ℤ) := by ring
  rw [h1, h2, Int.toNat_natCast, Int.toNat_natCast]

theorem length_le_grid_size {gw : GridWorld} {l : List Pos} (hn : l.Nodup)
    (hv : ∀ p ∈ l, gw.is_valid_position p = true) :
    l.length ≤ gw.width * gw.height := by
  have h1 : l.toFinset ⊆ valid_finset gw := fun x hx =>
    mem_valid_finset.mpr (hv x (List.mem_toFinset.mp hx))
  have h2 := Finset.card_le_card h1
  rwa [List.toFinset_card_of_nodup hn, valid_finset_card] at h2

/-! ### Characterisation of the neighbour expansion -/

theorem expand_fold_spec (gw : GridWorld) (p : Pos) (first : Option Move) :
    ∀ (ms : List Move) (q : List BfsEntry) (v : List Pos), v.Nodup →
    ∃ L : List (Move × Pos),
      (ms.foldl (push_candidate gw first p) (q, v)).1
          = q ++ L.map (fun mp => (mp.2, some (first.getD mp.1))) ∧
      (∀ x, x ∈ (ms.foldl (push_candidate gw first p) (q, v)).2 ↔
          x ∈ v ∨ x ∈ L.map Prod.snd) ∧
      (ms.foldl (push_candidate gw first p) (q, v)).2.Nodup ∧
      (L.map Prod.snd).Nodup ∧
      (∀ mp ∈ L, mp.1 ∈ ms ∧ mp.2 = step_move p mp.1 ∧
        gw.is_valid_position mp.2 = true ∧ mp.2 ∉ v) ∧
      (∀ m ∈ ms, gw.is_valid_position (step_move p m) = true →
        step_move p m ∈ (ms.foldl (push_candidate gw first p) (q, v)).2) ∧
      (ms.foldl (push_candidate gw first p) (q, v)).2.length = v.length + L.length := by
  intro ms
  induction ms with
  | nil =>
    intro q v hv
    exact ⟨[], by simp, by simp, hv, by simp, by simp, by simp, by simp⟩
  | cons m ms ih =>
    intro q v hv
    rw [List.foldl_cons]
    by_cases hcond : (gw.is_valid_position (step_move p m)
        && !(decide (step_move p m ∈ v))) = true
    · rw [Bool.and_eq_true, Bool.not_eq_true', decide_eq_false_iff_not] at hcond
      obtain ⟨hval, hmem⟩ := hcond
      have hpush : push_candidate gw first p (q, v) m
          = (q ++ [(step_move p m, some (first.getD m))], step_move p m :: v) := by
        simp [push_candidate, hval, hmem]
      rw [hpush]
      obtain ⟨L', hq', hv', hnd', hsnd', hprops', hcov', hlen'⟩ :=
        ih (q ++ [(step_move p m, some (first.getD m))]) (step_move p m :: v)
          (List.nodup_cons.mpr ⟨hmem, hv⟩)
      refine ⟨(m, step_move p m) :: L', ?_, ?_, hnd', ?_, ?_, ?_, ?_⟩
      · rw [hq']
        simp
      · intro x
        rw [hv' x]
        have hmapc : List.map Prod.snd ((m, step_move p m) :: L')
            = step_move p m :: List.map Prod.snd L' := rfl
        rw [hmapc, List.mem_cons, List.mem_cons]
        tauto
      · rw [List.map_cons]
        refine List.nodup_cons.mpr ⟨?_, hsnd'⟩
        intro hc
        obtain ⟨mp, hmp, hmpe⟩ := List.mem_map.mp hc
        have := (hprops' mp hmp).2.2.2
        rw [hmpe] at this
        exact this (List.mem_cons_self _ _)
      · intro mp hmp
        rcases List.mem_cons.mp hmp with h | h
        · subst h
          exact ⟨List.mem_cons_self _ _, rfl, hval, hmem⟩
        · obtain ⟨h1, h2, h3, h4⟩ := hprops' mp h
          exact ⟨List.mem_cons_of_mem _ h1, h2, h3, fun hc => h4 (List.mem_cons_of_mem _ hc)⟩
      · intro m' hm' hval'
        rcases List.mem_cons.mp hm' with h | h
        · subst h
          exact (hv' _).mpr (Or.inl (List.mem_cons_self _ _))
        · exact hcov' m' h hval'
      · rw [hlen']
        simp
        omega
    · have hpush : push_candidate gw first p (q, v) m = (q, v) := by
        simp only [push_candidate]
        rw [if_neg]
        simpa using hcond
      rw [hpush]
      obtain ⟨L', hq', hv', hnd', hsnd', hprops', hcov', hlen'⟩ := ih q v hv
      refine ⟨L', hq', hv', hnd', hsnd', ?_, ?_, hlen'⟩
      · intro mp hmp
        obtain ⟨h1, h2, h3, h4⟩ := hprops' mp hmp
        exact ⟨List.mem_cons_of_mem _ h1, h2, h3, h4⟩
      · intro m' hm' hval'
        rcases List.mem_cons.mp hm' with h | h
        · have hmemv : step_move p m' ∈ v := by
            by_contra hc
            apply hcond
            rw [← h, Bool.and_eq_true, Bool.not_eq_true', decide_eq_false_iff_not]
            exact ⟨hval', hc⟩
          exact (hv' _).mpr (Or.inl hmemv)
        · exact hcov' m' h hval'

/-! ### The BFS loop invariant -/

theorem move_mem_order (m : Move) : m ∈ planner_move_order := by
  cases m <;> simp [planner_move_order]

/-- Bookkeeping for one ghost queue entry: its position is reachable at its
label depth, and its stored first step really is the first move of a path of
that length. -/
def DepthOK (gw : GridWorld) (start : Pos) (en : BfsEntry × Nat) : Prop :=
  ReachN gw start en.2 en.1.1 ∧
  ((en.1.2 = none ∧ en.2 = 0 ∧ en.1.1 = start) ∨
   (∃ m, en.1.2 = some m ∧ 1 ≤ en.2 ∧ gw.is_valid_position (step_move start m) = true ∧
     ReachN gw (step_move start m) (en.2 - 1) en.1.1))

/-- `e` is below the label of the queue head (trivially true for an empty
queue). -/
def head_lt (dq : List (BfsEntry × Nat)) (e : Nat) : Prop :=
  ∀ en ∈ dq.head?, e < en.2

theorem head_lt_nil (e : Nat) : head_lt [] e := by
  simp [head_lt]

theorem head_lt_cons {en : BfsEntry × Nat} {dq : List (BfsEntry × Nat)} {e : Nat} :
    head_lt (en :: dq) e ↔ e < en.2 := by
  simp [head_lt]

/-- The BFS loop invariant over the real state `(q, v)`, the ghost
depth-labelled queue `dq` (whose entries mirror `q`) and the ghost list `P`
of already-processed positions. -/
structure BfsInv (gw : GridWorld) (start : Pos) (q : List BfsEntry) (v : List Pos)
    (dq : List (BfsEntry × Nat)) (P : List Pos) : Prop where
  hq : dq.map Prod.fst = q
  hvn : v.Nodup
  hvv : ∀ p ∈ v, gw.is_valid_position p = true
  hstart : start ∈ v
  hcov : ∀ x, x ∈ v ↔ x ∈ P ∨ x ∈ q.map Prod.fst
  hPuns : ∀ p ∈ P, cell_safe gw p = false
  hPnb : ∀ p ∈ P, ∀ m : Move, gw.is_valid_position (step_move p m) = true → step_move p m ∈ v
  hdepth : ∀ en ∈ dq, DepthOK gw start en
  hsort : dq.Pairwise (fun x y => x.2 ≤ y.2)
  hnear : ∀ x ∈ dq, ∀ y ∈ dq, x.2 ≤ y.2 + 1
  hlb : ∀ en ∈ dq, ∀ e, ReachN gw start e en.1.1 → en.2 ≤ e
  hclaim : ∀ e c, ReachN gw start e c → head_lt dq e → c ∈ P

theorem pairwise_map_const_label {β : Type} (L : List β) (g : β → BfsEntry) (k : Nat) :
    (L.map (fun x => (g x, k))).Pairwise (fun x y : BfsEntry × Nat => x.2 ≤ y.2) := by
  rw [List.pairwise_map]
  induction L with
  | nil => exact List.Pairwise.nil
  | cons x xs ih => exact List.Pairwise.cons (fun _ _ => le_refl k) ih

/-- One non-accepting BFS iteration preserves the invariant (with a strictly
smaller termination measure). -/
theorem bfs_inv_step (gw : GridWorld) (start p : Pos) (f₀ : Option Move) (a : Nat)
    (rest : List BfsEntry) (v : List Pos) (dq' : List (BfsEntry × Nat)) (P : List Pos)
    (inv : BfsInv gw start ((p, f₀) :: rest) v (((p, f₀), a) :: dq') P)
    (hsafe : cell_safe gw p = false) :
    ∃ dq2, BfsInv gw start
        (planner_move_order.foldl (push_candidate gw f₀ p) (rest, v)).1
        (planner_move_order.foldl (push_candidate gw f₀ p) (rest, v)).2
        dq2 (p :: P) ∧
      (planner_move_order.foldl (push_candidate gw f₀ p) (rest, v)).1.length
          + (gw.width * gw.height
            - (planner_move_order.foldl (push_candidate gw f₀ p) (rest, v)).2.length) + 1
        ≤ ((p, f₀) :: rest).length + (gw.width * gw.height - v.length) := by
  obtain ⟨L, hq', hv', hnd', hsnd', hprops', hcov', hlen'⟩ :=
    expand_fold_spec gw p f₀ planner_move_order rest v inv.hvn
  -- abbreviations
  set st := planner_move_order.foldl (push_candidate gw f₀ p) (rest, v) with hst
  have hrest : dq'.map Prod.fst = rest := by
    have := inv.hq
    rw [List.map_cons] at this
    exact (List.cons.injEq _ _ _ _).mp this |>.2
  have hdepth0 : DepthOK gw start ((p, f₀), a) := inv.hdepth _ (List.mem_cons_self _ _)
  have hreach_p : ReachN gw start a p := hdepth0.1
  have hsort_head : ∀ b ∈ dq', a ≤ b.2 := by
    have := List.pairwise_cons.mp inv.hsort
    exact fun b hb => this.1 b hb
  have hsort_tail : dq'.Pairwise (fun x y : BfsEntry × Nat => x.2 ≤ y.2) :=
    (List.pairwise_cons.mp inv.hsort).2
  have hnear_tail : ∀ b ∈ dq', b.2 ≤ a + 1 := fun b hb =>
    inv.hnear b (List.mem_cons_of_mem _ hb) _ (List.mem_cons_self _ _)
  -- the ghost queue for the new state
  set newL := L.map (fun mp => ((mp.2, some (f₀.getD mp.1)), a + 1)) with hnewL
  have hvmono : ∀ x ∈ v, x ∈ st.2 := fun x hx => (hv' x).mpr (Or.inl hx)
  have hLfresh : ∀ mp ∈ L, mp.2 ∉ v := fun mp hmp => (hprops' mp hmp).2.2.2
  have hLval : ∀ mp ∈ L, gw.is_valid_position mp.2 = true := fun mp hmp =>
    (hprops' mp hmp).2.2.1
  have hLstep : ∀ mp ∈ L, mp.2 = step_move p mp.1 := fun mp hmp => (hprops' mp hmp).2.1
  have hnewlabel : ∀ y ∈ newL, y.2 = a + 1 := by
    intro y hy
    obtain ⟨mp, _, hmpe⟩ := List.mem_map.mp hy
    rw [← hmpe]
  have hsort2 : (dq' ++ newL).Pairwise (fun x y : BfsEntry × Nat => x.2 ≤ y.2) := by
    rw [List.pairwise_append]
    refine ⟨hsort_tail, pairwise_map_const_label L _ (a + 1), ?_⟩
    intro x hx y hy
    rw [hnewlabel y hy]
    exact hnear_tail x hx
  refine ⟨dq' ++ newL, ?_, ?_⟩
  · -- the invariant at the expanded state
    have hqmap : (dq' ++ newL).map Prod.fst = st.1 := by
      rw [hnewL, List.map_append, List.map_map, hrest, hq']
      rfl
    have hstmap : st.1.map Prod.fst = rest.map Prod.fst ++ L.map Prod.snd := by
      rw [hq', List.map_append, List.map_map]
      rfl
    -- lower bound for the freshly enqueued positions
    have hlb_new : ∀ mp ∈ L, ∀ e, ReachN gw start e mp.2 → a + 1 ≤ e := by
      intro mp hmp e hre
      by_contra hcon
      push_neg at hcon
      have hea : e ≤ a := by omega
      rcases Nat.lt_or_ge e a with hlt | hge
      · have := inv.hclaim e mp.2 hre (head_lt_cons.mpr hlt)
        exact hLfresh mp hmp ((inv.hcov mp.2).mpr (Or.inl this))
      · have hea2 : e = a := by omega
        subst hea2
        cases e with
        | zero =>
          have hms := reachN_zero hre
          exact hLfresh mp hmp (hms.symm ▸ inv.hstart)
        | succ b =>
          obtain ⟨u, m', hru, hcu, hvu⟩ := reachN_succ hre
          have hu : u ∈ P := inv.hclaim b u hru (head_lt_cons.mpr (Nat.lt_succ_self b))
          have := inv.hPnb u hu m' (by rw [← hcu]; exact hvu)
          rw [← hcu] at this
          exact hLfresh mp hmp this
    constructor
    case hq => exact hqmap
    case hvn => exact hnd'
    case hvv =>
      intro x hx
      rcases (hv' x).mp hx with h | h
      · exact inv.hvv x h
      · obtain ⟨mp, hmp, hmpe⟩ := List.mem_map.mp h
        rw [← hmpe]
        exact hLval mp hmp
    case hstart => exact hvmono start inv.hstart
    case hcov =>
      intro x
      rw [hv' x, inv.hcov x, hstmap, List.mem_append, List.map_cons, List.mem_cons,
        List.mem_cons]
      tauto
    case hPuns =>
      intro x hx
      rcases List.mem_cons.mp hx with h | h
      · rw [h]; exact hsafe
      · exact inv.hPuns x h
    case hPnb =>
      intro x hx m hm
      rcases List.mem_cons.mp hx with h | h
      · rw [h]
        exact hcov' m (move_mem_order m) (by rw [← h]; exact hm)
      · exact hvmono _ (inv.hPnb x h m hm)
    case hdepth =>
      intro en hen
      rcases List.mem_append.mp hen with h | h
      · exact inv.hdepth en (List.mem_cons_of_mem _ h)
      · obtain ⟨mp, hmp, hmpe⟩ := List.mem_map.mp h
        rw [← hmpe]
        constructor
        · show ReachN gw start (a + 1) mp.2
          rw [hLstep mp hmp]
          exact ReachN.step mp.1 hreach_p (by rw [← hLstep mp hmp]; exact hLval mp hmp)
        · right
          rcases hdepth0.2 with ⟨hf0, ha0, hps⟩ | ⟨m₀, hfm₀, ha1, hvm₀, hr₀⟩
          · have hf0' : f₀ = none := hf0
            have ha0' : a = 0 := ha0
            have hps' : p = start := hps
            refine ⟨mp.1, ?_, by omega, ?_, ?_⟩
            · show some (f₀.getD mp.1) = some mp.1
              rw [hf0']
              rfl
            · have hse : step_move start mp.1 = mp.2 := by
                rw [hLstep mp hmp, hps']
              rw [hse]
              exact hLval mp hmp
            · have hse : step_move start mp.1 = mp.2 := by
                rw [hLstep mp hmp, hps']
              show ReachN gw (step_move start mp.1) (a + 1 - 1) mp.2
              rw [hse, ha0']
              exact ReachN.refl
          · have hfm₀' : f₀ = some m₀ := hfm₀
            refine ⟨m₀, ?_, by omega, hvm₀, ?_⟩
            · show some (f₀.getD mp.1) = some m₀
              rw [hfm₀']
              rfl
            · show ReachN gw (step_move start m₀) (a + 1 - 1) mp.2
              have hstep : ReachN gw (step_move start m₀) (a - 1 + 1) (step_move p mp.1) :=
                ReachN.step mp.1 hr₀ (by rw [← hLstep mp hmp]; exact hLval mp hmp)
              have ha : a - 1 + 1 = a := Nat.succ_pred_eq_of_pos ha1
              rw [ha] at hstep
              rw [hLstep mp hmp]
              simpa using hstep
    case hsort => exact hsort2
    case hnear =>
      intro x hx y hy
      have hxval : a ≤ x.2 ∧ x.2 ≤ a + 1 := by
        rcases List.mem_append.mp hx with h | h
        · exact ⟨hsort_head x h, hnear_tail x h⟩
        · rw [hnewlabel x h]
          exact ⟨by omega, by omega⟩
      have hyval : a ≤ y.2 ∧ y.2 ≤ a + 1 := by
        rcases List.mem_append.mp hy with h | h
        · exact ⟨hsort_head y h, hnear_tail y h⟩
        · rw [hnewlabel y h]
          exact ⟨by omega, by omega⟩
      omega
    case hlb =>
      intro en hen e hre
      rcases List.mem_append.mp hen with h | h
      · exact inv.hlb en (List.mem_cons_of_mem _ h) e hre
      · obtain ⟨mp, hmp, hmpe⟩ := List.mem_map.mp h
        rw [← hmpe] at hre ⊢
        exact hlb_new mp hmp e hre
    case hclaim =>
      intro e c hre hhead
      cases hdq2 : dq' ++ newL with
      | nil =>
        -- the queue has emptied: rest and the pushes are empty, every
        -- reachable cell is already processed
        obtain ⟨hdq'nil, hnewnil⟩ := List.append_eq_nil.mp hdq2
        have hLnil : L = [] := List.map_eq_nil_iff.mp (by rw [← hnewL]; exact hnewnil)
        have hrestnil : rest = [] := by rw [← hrest, hdq'nil]; rfl
        clear hhead
        revert hre
        revert c
        induction e using Nat.strong_induction_on with
        | _ e ihe =>
          intro c hre
          cases e with
          | zero =>
            have hceq := reachN_zero hre
            rw [hceq]
            rcases (inv.hcov start).mp inv.hstart with h | h
            · exact List.mem_cons_of_mem _ h
            · rw [List.map_cons, hrestnil] at h
              simp at h
              rw [h]
              exact List.mem_cons_self _ _
          | succ b =>
            obtain ⟨u, m', hru, hcu, hvu⟩ := reachN_succ hre
            have hu : u ∈ p :: P := ihe b (Nat.lt_succ_self b) u hru
            have hcin : c ∈ st.2 := by
              rcases List.mem_cons.mp hu with h | h
              · rw [hcu, h]
                refine hcov' m' (move_mem_order m') ?_
                rw [← h, ← hcu]
                exact hvu
              · rw [hcu]
                exact hvmono _ (inv.hPnb u h m' (by rw [← hcu]; exact hvu))
            rcases (hv' c).mp hcin with h | h
            · rcases (inv.hcov c).mp h with h2 | h2
              · exact List.mem_cons_of_mem _ h2
              · rw [List.map_cons, hrestnil] at h2
                simp at h2
                rw [h2]
                exact List.mem_cons_self _ _
            · rw [hLnil] at h
              simp at h
      | cons enh tl =>
        rw [hdq2] at hhead
        have hhl : e < enh.2 := head_lt_cons.mp hhead
        have henh_mem : enh ∈ dq' ++ newL := by rw [hdq2]; exact List.mem_cons_self _ _
        have henh_ub : enh.2 ≤ a + 1 := by
          rcases List.mem_append.mp henh_mem with h | h
          · exact hnear_tail enh h
          · rw [hnewlabel enh h]
        have hea : e ≤ a := by omega
        rcases Nat.lt_or_ge e a with hlt | hge
        · exact List.mem_cons_of_mem _ (inv.hclaim e c hre (head_lt_cons.mpr hlt))
        · have hea2 : e = a := by omega
          subst hea2
          cases he0 : e with
          | zero =>
            have hps : p = start := by
              rcases hdepth0.2 with ⟨_, _, hps⟩ | ⟨_, _, h1, _, _⟩
              · exact hps
              · omega
            rw [he0] at hre
            have hceq := reachN_zero hre
            rw [hceq, ← hps]
            exact List.mem_cons_self _ _
          | succ b =>
            rw [he0] at hre hhl henh_ub
            obtain ⟨u, m', hru, hcu, hvu⟩ := reachN_succ hre
            have hu : u ∈ P := inv.hclaim b u hru (by
              rw [head_lt_cons]
              omega)
            have hcv : c ∈ v := by
              rw [hcu]
              exact inv.hPnb u hu m' (by rw [← hcu]; exact hvu)
            rcases (inv.hcov c).mp hcv with h | h
            · exact List.mem_cons_of_mem _ h
            · rw [List.map_cons] at h
              rcases List.mem_cons.mp h with h2 | h2
              · rw [h2]
                exact List.mem_cons_self _ _
              · exfalso
                rw [← hrest] at h2
                obtain ⟨en1, hen1, hen1e⟩ := List.mem_map.mp h2
                obtain ⟨enc, henc, hence⟩ := List.mem_map.mp hen1
                have hencc : enc.1.1 = c := by rw [hence, hen1e]
                have hlbc : enc.2 ≤ b + 1 :=
                  inv.hlb enc (List.mem_cons_of_mem _ henc) (b + 1) (by rw [hencc]; exact hre)
                have hencin : enc ∈ enh :: tl := by
                  rw [← hdq2]
                  exact List.mem_append_left _ henc
                rcases List.mem_cons.mp hencin with h3 | h3
                · rw [h3] at hlbc
                  omega
                · have := (List.pairwise_cons.mp (hdq2 ▸ hsort2)).1 enc h3
                  omega
  · -- the measure decreases
    have hstlen : st.2.length = v.length + L.length := hlen'
    have hqlen : st.1.length = rest.length + L.length := by
      rw [hq', List.length_append, List.length_map]
    have hbound : st.2.length ≤ gw.width * gw.height := by
      apply length_le_grid_size hnd'
      intro x hx
      rcases (hv' x).mp hx with h | h
      · exact inv.hvv x h
      · obtain ⟨mp, hmp, hmpe⟩ := List.mem_map.mp h
        rw [← hmpe]
        exact hLval mp hmp
    rw [hstlen, hqlen]
    simp only [List.length_cons]
    omega

/-- Full specification of the BFS loop, by induction on the fuel. -/
theorem bfs_loop_spec (gw : GridWorld) (start : Pos) :
    ∀ (fuel : Nat) (q : List BfsEntry) (v : List Pos) (dq : List (BfsEntry × Nat)) (P : List Pos),
    BfsInv gw start q v dq P →
    q.length + (gw.width * gw.height - v.length) ≤ fuel →
    (bfs_loop gw fuel q v = none → ∀ e c, ReachN gw start e c → cell_safe gw c = false) ∧
    (∀ f, bfs_loop gw fuel q v = some f →
      ∃ d, NearestSafeDist gw start d ∧
        ((f = none ∧ d = 0 ∧ cell_safe gw start = true) ∨
         (∃ m, f = some m ∧ 1 ≤ d ∧ gw.is_valid_position (step_move start m) = true ∧
           NearestSafeDist gw (step_move start m) (d - 1)))) := by
  intro fuel
  induction fuel with
  | zero =>
    intro q v dq P inv hfuel
    have hq0 : q = [] := by
      cases q with
      | nil => rfl
      | cons x xs =>
        simp only [List.length_cons] at hfuel
        omega
    subst hq0
    have hdq0 : dq = [] := List.map_eq_nil_iff.mp inv.hq
    constructor
    · intro _ e c hre
      exact inv.hPuns c (inv.hclaim e c hre (by rw [hdq0]; exact head_lt_nil e))
    · intro f hf
      simp [bfs_loop] at hf
  | succ fuel ih =>
    intro q v dq P inv hfuel
    cases q with
    | nil =>
      have hdq0 : dq = [] := List.map_eq_nil_iff.mp inv.hq
      constructor
      · intro _ e c hre
        exact inv.hPuns c (inv.hclaim e c hre (by rw [hdq0]; exact head_lt_nil e))
      · intro f hf
        simp [bfs_loop] at hf
    | cons hd rest =>
      obtain ⟨p, f₀⟩ := hd
      cases dq with
      | nil => exact absurd inv.hq (by simp)
      | cons en₀ dq' =>
        obtain ⟨enf, a⟩ := en₀
        have hpair : enf = (p, f₀) ∧ dq'.map Prod.fst = rest := by
          have h := inv.hq
          rw [List.map_cons] at h
          exact ⟨((List.cons.injEq _ _ _ _).mp h).1, ((List.cons.injEq _ _ _ _).mp h).2⟩
        have henf := hpair.1
        subst henf
        by_cases hsafe : cell_safe gw p = true
        · -- the popped cell is safe: the loop returns its first step
          have heval : bfs_loop gw (fuel + 1) ((p, f₀) :: rest) v = some f₀ := by
            simp [bfs_loop, hsafe]
          constructor
          · intro hnone
            rw [heval] at hnone
            simp at hnone
          · intro f hf
            rw [heval] at hf
            have hff : f₀ = f := by
              injection hf
            have hdepth0 : DepthOK gw start ((p, f₀), a) :=
              inv.hdepth _ (List.mem_cons_self _ _)
            have hmin : ∀ e c, ReachN gw start e c → cell_safe gw c = true → a ≤ e := by
              intro e c hre hsc
              by_contra hcon
              push_neg at hcon
              have hc := inv.hclaim e c hre (head_lt_cons.mpr hcon)
              rw [inv.hPuns c hc] at hsc
              exact Bool.false_ne_true hsc
            have hnst : NearestSafeDist gw start a := ⟨⟨p, hdepth0.1, hsafe⟩, hmin⟩
            refine ⟨a, hnst, ?_⟩
            rcases hdepth0.2 with ⟨hf0, ha0, hps⟩ | ⟨m₀, hfm₀, ha1, hvm₀, hr₀⟩
            · left
              have hf0' : f₀ = none := hf0
              have ha0' : a = 0 := ha0
              have hps' : p = start := hps
              exact ⟨by rw [← hff, hf0'], ha0', by rw [← hps']; exact hsafe⟩
            · right
              have hfm' : f₀ = some m₀ := hfm₀
              refine ⟨m₀, by rw [← hff, hfm'], ha1, hvm₀, ⟨⟨p, hr₀, hsafe⟩, ?_⟩⟩
              intro e c hre hsc
              have hpre := reachN_prepend m₀ hvm₀ hre
              have := hmin (e + 1) c hpre hsc
              omega
        · -- the popped cell is unsafe: expand and recurse
          have hsafe' : cell_safe gw p = false := by
            cases hcs : cell_safe gw p
            · rfl
            · exact absurd hcs hsafe
          obtain ⟨dq2, inv2, hmeas⟩ := bfs_inv_step gw start p f₀ a rest v dq' P inv hsafe'
          have heval : bfs_loop gw (fuel + 1) ((p, f₀) :: rest) v
              = bfs_loop gw fuel
                  (planner_move_order.foldl (push_candidate gw f₀ p) (rest, v)).1
                  (planner_move_order.foldl (push_candidate gw f₀ p) (rest, v)).2 := by
            simp [bfs_loop, hsafe', expand_neighbors]
          rw [heval]
          apply ih _ _ dq2 _ inv2
          simp only [List.length_cons] at hfuel hmeas ⊢
          omega

/-- The top-level BFS specification, at the initial state of
`find_nearest_safe_cell`. -/
theorem find_spec_general (gw : GridWorld) (start : Pos)
    (hs : gw.is_valid_position start = true) :
    (cell_safe gw start = true → find_nearest_safe_cell gw start = none) ∧
    (cell_safe gw start = false →
      ((find_nearest_safe_cell gw start = none ↔
          ¬ ∃ e c, ReachN gw start e c ∧ cell_safe gw c = true) ∧
       (∀ m, find_nearest_safe_cell gw start = some m →
          gw.is_valid_position (step_move start m) = true ∧
          ∃ d, 1 ≤ d ∧ NearestSafeDist gw start d ∧
            NearestSafeDist gw (step_move start m) (d - 1)))) := by
  have hB : 1 ≤ gw.width * gw.height := by
    rw [GridWorld.is_valid_position, Bool.and_eq_true, Bool.and_eq_true, Bool.and_eq_true] at hs
    simp only [decide_eq_true_eq] at hs
    have h1 : (0 : ℤ) < gw.width := lt_of_le_of_lt hs.1.1.1 hs.1.1.2
    have h2 : (0 : ℤ) < gw.height := lt_of_le_of_lt hs.1.2 hs.2
    have h1' : 1 ≤ gw.width := by exact_mod_cast h1
    have h2' : 1 ≤ gw.height := by exact_mod_cast h2
    exact Nat.one_le_iff_ne_zero.mpr (by positivity)
  have inv0 : BfsInv gw start [(start, none)] [start] [((start, none), 0)] [] := by
    constructor
    case hq => rfl
    case hvn => simp
    case hvv =>
      intro x hx
      rw [List.mem_singleton] at hx
      rw [hx]
      exact hs
    case hstart => exact List.mem_singleton.mpr rfl
    case hcov => intro x; simp
    case hPuns => intro x hx; simp at hx
    case hPnb => intro x hx; simp at hx
    case hdepth =>
      intro en hen
      rw [List.mem_singleton] at hen
      rw [hen]
      exact ⟨ReachN.refl, Or.inl ⟨rfl, rfl, rfl⟩⟩
    case hsort => simp
    case hnear =>
      intro x hx y hy
      rw [List.mem_singleton] at hx
      rw [hx]
      simp
    case hlb =>
      intro en hen e _
      rw [List.mem_singleton] at hen
      rw [hen]
      exact Nat.zero_le e
    case hclaim =>
      intro e c _ hhead
      have := head_lt_cons.mp hhead
      omega
  have hmeas : ([(start, none)] : List BfsEntry).length
      + (gw.width * gw.height - ([start] : List Pos).length) ≤ gw.width * gw.height + 1 := by
    simp only [List.length_cons, List.length_nil]
    omega
  have hspec := bfs_loop_spec gw start (gw.width * gw.height + 1)
    [(start, none)] [start] [((start, none), 0)] [] inv0 hmeas
  constructor
  · intro hsafe
    have heval : bfs_loop gw (gw.width * gw.height + 1) [(start, none)] [start]
        = some none := by
      simp [bfs_loop, hsafe]
    rw [find_nearest_safe_cell, heval]
    rfl
  · intro hsafe
    constructor
    · constructor
      · intro hfind
        cases hb : bfs_loop gw (gw.width * gw.height + 1) [(start, none)] [start] with
        | none =>
          intro ⟨e, c, hrc, hsc⟩
          rw [hspec.1 hb e c hrc] at hsc
          exact Bool.false_ne_true hsc
        | some f =>
          rw [find_nearest_safe_cell, hb] at hfind
          have hf : f = none := hfind
          subst hf
          obtain ⟨d, hnst, hshape⟩ := hspec.2 none hb
          rcases hshape with ⟨_, _, hcon⟩ | ⟨m, hcon, _⟩
          · rw [hsafe] at hcon
            exact absurd hcon Bool.false_ne_true
          · exact absurd hcon (by simp)
      · intro hno
        cases hb : bfs_loop gw (gw.width * gw.height + 1) [(start, none)] [start] with
        | none =>
          rw [find_nearest_safe_cell, hb]
          rfl
        | some f =>
          obtain ⟨d, hnst, _⟩ := hspec.2 f hb
          obtain ⟨c, hrc, hsc⟩ := hnst.1
          exact absurd ⟨d, c, hrc, hsc⟩ hno
    · intro m hm
      have hb : bfs_loop gw (gw.width * gw.height + 1) [(start, none)] [start]
          = some (some m) := by
        cases hb : bfs_loop gw (gw.width * gw.height + 1) [(start, none)] [start] with
        | none =>
          rw [find_nearest_safe_cell, hb] at hm
          exact absurd hm (by simp)
        | some f =>
          rw [find_nearest_safe_cell, hb] at hm
          have : f = some m := hm
          rw [this]
      obtain ⟨d, hnst, hshape⟩ := hspec.2 (some m) hb
      rcases hshape with ⟨hcon, _, _⟩ | ⟨m', heq, hd1, hval, hnst'⟩
      · exact absurd hcon (by simp)
      · have hmm : m' = m := by
          injection heq with h
          exact h.symm
        subst hmm
        exact ⟨hval, d, hd1, hnst, hnst'⟩

/-- Following the BFS first steps reaches a safe cell in exactly the nearest
safe distance, and never earlier. -/
theorem follow_route_reaches (gw : GridWorld) :
    ∀ (d : Nat) (p : Pos), gw.is_valid_position p = true → NearestSafeDist gw p d →
    (∃ c, follow_route gw d p = some c ∧ cell_safe gw c = true) ∧
    (∀ k c, k < d → follow_route gw k p = some c → cell_safe gw c = false) := by
  intro d
  induction d with
  | zero =>
    intro p _ hn
    obtain ⟨c, hrc, hsc⟩ := hn.1
    have hcp := reachN_zero hrc
    refine ⟨⟨p, rfl, by rw [← hcp]; exact hsc⟩, ?_⟩
    intro k c hk _
    omega
  | succ d ihd =>
    intro p hp hn
    have hps : cell_safe gw p = false := by
      cases hcs : cell_safe gw p
      · rfl
      · have := hn.2 0 p ReachN.refl hcs
        omega
    have hspec := find_spec_general gw p hp
    obtain ⟨m, hm⟩ : ∃ m, find_nearest_safe_cell gw p = some m := by
      cases hf : find_nearest_safe_cell gw p with
      | some m => exact ⟨m, rfl⟩
      | none =>
        have hno := ((hspec.2 hps).1).mp hf
        obtain ⟨c, hrc, hsc⟩ := hn.1
        exact absurd ⟨d + 1, c, hrc, hsc⟩ hno
    obtain ⟨hval, d', hd1, hnd', hnd''⟩ := (hspec.2 hps).2 m hm
    have hdd : d' = d + 1 := nearest_safe_dist_unique hnd' hn
    subst hdd
    have hnd2 : NearestSafeDist gw (step_move p m) d := by
      simpa using hnd''
    have hstep := ihd (step_move p m) hval hnd2
    have hunf : ∀ k, follow_route gw (k + 1) p = follow_route gw k (step_move p m) := by
      intro k
      simp [follow_route, hm]
    constructor
    · obtain ⟨c, hfc, hsc⟩ := hstep.1
      exact ⟨c, by rw [hunf d]; exact hfc, hsc⟩
    · intro k c hk hfk
      cases k with
      | zero =>
        have hcp : p = c := by
          simpa [follow_route] using hfk
        rw [← hcp]
        exact hps
      | succ k' =>
        rw [hunf k'] at hfk
        exact hstep.2 k' c (by omega) hfk

/-- C2 counterexample: on a 1-by-2 all-plains grid, starting from the safe
cell `(0, 0)`, a safe cell other than the start (`(0, 1)`) is reachable, yet
`find_nearest_safe_cell` returns `None` (the loop returns the start's `None`
first step), so the returned first step is not the first move of a path to the
nearest other safe cell, and `None` does not mean "no satisfying cell is
reachable". -/
theorem find_nearest_safe_cell_start_safe_cex :
    find_nearest_safe_cell (GridWorld.mk 1 2 (fun _ _ => TerrainType.plains)) (0, 0) = none ∧
    ReachN (GridWorld.mk 1 2 (fun _ _ => TerrainType.plains)) (0, 0) 1 (0, 1) ∧
    cell_safe (GridWorld.mk 1 2 (fun _ _ => TerrainType.plains)) (0, 1) = true ∧
    ((0, 1) : Pos) ≠ (0, 0) := by
  refine ⟨by decide, ?_, by decide, by decide⟩
  have h : ((0, 1) : Pos) = step_move (0, 0) Move.south := by decide
  rw [h]
  exact ReachN.step Move.south ReachN.refl (by decide)

/-- C2 (amended): `find_nearest_safe_cell` runs a BFS over the 4-connected
grid from `start`, expanding neighbours in the fixed order north, south, west,
east (`planner_move_order`).  When the start cell itself satisfies the
predicate (non-dangerous terrain) it returns `None` immediately.  Otherwise:
it returns `None` iff no satisfying cell is reachable; a returned first step
is the first move of a shortest path to the nearest satisfying cell (the
stepped-to cell is valid and its nearest safe distance is exactly one less);
and applying first steps repeatedly reaches a satisfying cell in exactly the
nearest safe distance and never earlier. -/
theorem find_nearest_safe_cell_correct (gw : GridWorld) (start : Pos)
    (hs : gw.is_valid_position start = true) :
    (cell_safe gw start = true → find_nearest_safe_cell gw start = none) ∧
    (cell_safe gw start = false →
      ((find_nearest_safe_cell gw start = none ↔
          ¬ ∃ e c, ReachN gw start e c ∧ cell_safe gw c = true) ∧
       (∀ m, find_nearest_safe_cell gw start = some m →
          gw.is_valid_position (step_move start m) = true ∧
          ∃ d, 1 ≤ d ∧ NearestSafeDist gw start d ∧
            NearestSafeDist gw (step_move start m) (d - 1)) ∧
       (∀ d, NearestSafeDist gw start d →
          (∃ c, follow_route gw d start = some c ∧ cell_safe gw c = true) ∧
          ∀ k c, k < d → follow_route gw k start = some c → cell_safe gw c = false))) := by
  have hspec := find_spec_general gw start hs
  refine ⟨hspec.1, fun hsafe => ⟨(hspec.2 hsafe).1, (hspec.2 hsafe).2, ?_⟩⟩
  intro d hnd
  exact follow_route_reaches gw d start hs hnd

/-- Witness for C2: a 1-by-2 grid whose start cell is mountains and whose
other cell is plains. -/
theorem find_nearest_safe_cell_correct_witness :
    (GridWorld.mk 1 2 (fun _ y => if y = 0 then TerrainType.mountains
        else TerrainType.plains)).is_valid_position (0, 0) = true ∧
    ((cell_safe (GridWorld.mk 1 2 (fun _ y => if y = 0 then TerrainType.mountains
        else TerrainType.plains)) (0, 0) = true →
      find_nearest_safe_cell (GridWorld.mk 1 2 (fun _ y => if y = 0 then TerrainType.mountains
        else TerrainType.plains)) (0, 0) = none) ∧
    (cell_safe (GridWorld.mk 1 2 (fun _ y => if y = 0 then TerrainType.mountains
        else TerrainType.plains)) (0, 0) = false →
      ((find_nearest_safe_cell (GridWorld.mk 1 2 (fun _ y => if y = 0 then TerrainType.mountains
          else TerrainType.plains)) (0, 0) = none ↔
          ¬ ∃ e c, ReachN (GridWorld.mk 1 2 (fun _ y => if y = 0 then TerrainType.mountains
            else TerrainType.plains)) (0, 0) e c ∧
            cell_safe (GridWorld.mk 1 2 (fun _ y => if y = 0 then TerrainType.mountains
              else TerrainType.plains)) c = true) ∧
       (∀ m, find_nearest_safe_cell (GridWorld.mk 1 2 (fun _ y => if y = 0 then
            TerrainType.mountains else TerrainType.plains)) (0, 0) = some m →
          (GridWorld.mk 1 2 (fun _ y => if y = 0 then TerrainType.mountains
            else TerrainType.plains)).is_valid_position (step_move (0, 0) m) = true ∧
          ∃ d, 1 ≤ d ∧ NearestSafeDist (GridWorld.mk 1 2 (fun _ y => if y = 0 then
              TerrainType.mountains else TerrainType.plains)) (0, 0) d ∧
            NearestSafeDist (GridWorld.mk 1 2 (fun _ y => if y = 0 then TerrainType.mountains
              else TerrainType.plains)) (step_move (0, 0) m) (d - 1)) ∧
       (∀ d, NearestSafeDist (GridWorld.mk 1 2 (fun _ y => if y = 0 then TerrainType.mountains
            else TerrainType.plains)) (0, 0) d →
          (∃ c, follow_route (GridWorld.mk 1 2 (fun _ y => if y = 0 then TerrainType.mountains
              else TerrainType.plains)) d (0, 0) = some c ∧
            cell_safe (GridWorld.mk 1 2 (fun _ y => if y = 0 then TerrainType.mountains
              else TerrainType.plains)) c = true) ∧
          ∀ k c, k < d → follow_route (GridWorld.mk 1 2 (fun _ y => if y = 0 then
              TerrainType.mountains else TerrainType.plains)) k (0, 0) = some c →
            cell_safe (GridWorld.mk 1 2 (fun _ y => if y = 0 then TerrainType.mountains
              else TerrainType.plains)) c = false)))) :=
  ⟨by decide,
   find_nearest_safe_cell_correct
     (GridWorld.mk 1 2 (fun _ y => if y = 0 then TerrainType.mountains else TerrainType.plains))
     (0, 0) (by decide)⟩

end Aiden
